import Mathlib

/-!
Dense row-major tensor: embedding of `src/src/tensor.cpp`.

The class `Tensor` of `include/tensor.h` owns three vectors: `shape_`
(`std::vector<int>`), `strides_` (`std::vector<size_t>`) and `data_`
(`std::vector<float>`).  The embedding keeps the three fields and the names of
the member functions.

Conventions of the embedding:

* `int` values are `Int`; `size_t` values are `Nat` kept below `2 ^ 64`, every
  `size_t` multiplication and addition is followed by `% SIZE_T_MOD`;
* the element type is a parameter `F` with a zero (`0.0f`); the code only
  stores and returns elements, it never computes with them;
* a call ends in `Except.ok` or in a `Fault`: one of the two C++ exceptions
  the code throws, an exception of `data_.assign`, or an access `data_[off]` with
  `off` outside the buffer, for which the language defines no behaviour;
* the allocation of the data buffer by `data_.assign` depends on an `Allocator`,
  which says how many elements a `std::vector<float>` can have and how many the run
  can provide; the short vectors `shape_` and `strides_` are lists, and their number
  of entries is taken to fit `int`, the type of the loop counter of
  `compute_strides` and of the result of `ndim`;
* the overloads of `set` and `get` that take a `std::initializer_list<int>` copy it
  into a vector and call the overloads embedded here;
* `print` returns the sequence of items it writes to `std::cout`; how a `float` is
  formatted is not part of the embedding;
* `reshape`, `add`, `multiply` and `transpose2D` are declared in `tensor.h` and
  defined in no source file: their definitions here follow the specification.
-/

namespace TensorModel

/-- Number of values of the type `size_t` (64-bit unsigned). -/
def SIZE_T_MOD : Nat := 2 ^ 64

/-- The conversion `static_cast<size_t>(s)` of an `int`. -/
def to_size_t (s : Int) : Nat := (s % (SIZE_T_MOD : Int)).toNat

/-- Texts of the exceptions thrown in `tensor.cpp`, with the numbers they carry. -/
inductive Message where
  /-- "Shape must have at least one dimension" -/
  | shape_empty : Message
  /-- "All shape dimensions must be > 0" -/
  | shape_not_positive : Message
  /-- "Index has `got` dims but tensor has `dims`" -/
  | index_dims (got dims : Nat) : Message
  /-- "Index `ind` out of bounds for axis `axis` (size `size`)" -/
  | index_bounds (ind : Int) (axis : Nat) (size : Int) : Message
  /-- A text the sources do not give: the exceptions of the members that `tensor.h`
  declares and `tensor.cpp` does not define. -/
  | unspecified : Message
  deriving DecidableEq, Repr

/-- Ways in which a call does not return normally. -/
inductive Fault where
  /-- The exception `std::invalid_argument`. -/
  | invalid_argument (msg : Message) : Fault
  /-- The exception `std::out_of_range`. -/
  | out_of_range (msg : Message) : Fault
  /-- The exception `std::length_error`, thrown by `data_.assign` for a number of
  elements above `max_size()`. -/
  | length_error : Fault
  /-- The exception `std::bad_alloc`, thrown by `data_.assign` when the allocator
  does not provide the buffer. -/
  | bad_alloc : Fault
  /-- The access `data_[off]` with `off >= data_.size()`: no exception is
  thrown, the behaviour is undefined. -/
  | outside_buffer (off len : Nat) : Fault
  deriving DecidableEq, Repr

deriving instance DecidableEq for Except

/-- The private fields of the class `Tensor`. -/
structure Tensor (F : Type) where
  shape_ : List Int
  strides_ : List Nat
  data_ : List F
  deriving DecidableEq, Repr

variable {F : Type}

/-- The member `ndim`: `static_cast<int>(shape_.size())`.  The number of entries of
a vector is taken to fit `int` (see the conventions), so the conversion keeps it. -/
def Tensor.ndim (t : Tensor F) : Int := (t.shape_.length : Int)

/-- The member `size`: `n = 1; for (int s : shape_) n *= static_cast<size_t>(s);`. -/
def Tensor.size (t : Tensor F) : Nat :=
  t.shape_.foldl (fun n s => (n * to_size_t s) % SIZE_T_MOD) 1

/-- The loop of `compute_strides`.  The first argument is `i + 1` for the loop
counter `i`, which runs from `shape_.size() - 1` down to `0`:
`strides_[i] = stride; stride *= static_cast<size_t>(shape_[i]);`. -/
def compute_strides_loop (shape : List Int) : Nat → List Nat → Nat → List Nat
  | 0, strides, _ => strides
  | i + 1, strides, stride =>
      compute_strides_loop shape i (strides.set i stride)
        ((stride * to_size_t (shape.getD i 0)) % SIZE_T_MOD)

/-- The member `compute_strides`: `strides_.resize(shape_.size())`, then the loop
with `stride = 1`. -/
def Tensor.compute_strides (t : Tensor F) : Tensor F :=
  let resized := t.strides_.take t.shape_.length
    ++ List.replicate (t.shape_.length - t.strides_.length) 0
  { t with strides_ := compute_strides_loop t.shape_ t.shape_.length resized 1 }

/-- What a run fixes about the buffer of a `std::vector<float>`: the value of
`max_size()` and the largest number of elements the allocator provides.  A `float`
takes 4 bytes and a buffer lies within the 64-bit address space, so
`max_size() * 4 < 2 ^ 64`. -/
structure Allocator where
  max_size : Nat
  available : Nat
  max_size_bound : max_size * 4 < 2 ^ 64

/-- The library call `data_.assign(n, 0.0f)` on the empty buffer: it throws
`std::length_error` when `n` exceeds `max_size()`, `std::bad_alloc` when the
allocator does not provide `n` elements, and otherwise leaves `n` zeros. -/
def assign [Zero F] (a : Allocator) (n : Nat) : Except Fault (List F) :=
  if a.max_size < n then .error .length_error
  else if a.available < n then .error .bad_alloc
  else .ok (List.replicate n 0)

/-- The constructor `Tensor::Tensor(shape)`, run with the allocator `a`. -/
def Tensor.new [Zero F] (a : Allocator) (shape : List Int) : Except Fault (Tensor F) :=
  let t0 : Tensor F := { shape_ := shape, strides_ := [], data_ := [] }
  if t0.shape_.isEmpty then .error (.invalid_argument .shape_empty)
  else if t0.shape_.any (fun s => decide (s ≤ 0)) then
    .error (.invalid_argument .shape_not_positive)
  else
    let t1 := t0.compute_strides
    match assign a t1.size with
    | .error e => .error e
    | .ok data => .ok { t1 with data_ := data }

/-- An allocator of a 64-bit implementation: `max_size()` is `2 ^ 61 - 1` and the
run provides up to `2 ^ 32` elements (16 GiB). -/
def sample_allocator : Allocator := ⟨2 ^ 61 - 1, 2 ^ 32, by decide⟩

/-- The loop of `index_from_indices`, on the entries `idx[i], idx[i+1], ...`
still to be visited, with the loop counter `i` and the running `offset`. -/
def index_loop (shape : List Int) (strides : List Nat) :
    List Int → Nat → Nat → Except Fault Nat
  | [], _, offset => .ok offset
  | ind :: rest, i, offset =>
      if ind < 0 ∨ ind ≥ shape.getD i 0 then
        .error (.out_of_range (.index_bounds ind i (shape.getD i 0)))
      else
        index_loop shape strides rest (i + 1)
          ((offset + (to_size_t ind * strides.getD i 0) % SIZE_T_MOD) % SIZE_T_MOD)

/-- The member `index_from_indices`. -/
def Tensor.index_from_indices (t : Tensor F) (idx : List Int) : Except Fault Nat :=
  if idx.length ≠ t.shape_.length then
    .error (.out_of_range (.index_dims idx.length t.shape_.length))
  else
    index_loop t.shape_ t.strides_ idx 0 0

/-- The member `set(idx, value)`, returning how the call ends together with the
tensor after the call.  An exception of `index_from_indices` leaves before the
assignment `data_[off] = value`.  The comparison of `off` with the length of the
buffer is not a check of the code: it separates the defined assignment from the
one outside the buffer. -/
def Tensor.set (t : Tensor F) (idx : List Int) (value : F) :
    Except Fault Unit × Tensor F :=
  match t.index_from_indices idx with
  | .error e => (.error e, t)
  | .ok off =>
      if off < t.data_.length then
        (.ok (), { t with data_ := t.data_.set off value })
      else (.error (.outside_buffer off t.data_.length), t)

/-- The member `get(idx)`; it is `const`, the tensor is the same after the call.
As in `set`, the case `none` is the read `data_[off]` outside the buffer. -/
def Tensor.get (t : Tensor F) (idx : List Int) : Except Fault F :=
  match t.index_from_indices idx with
  | .error e => .error e
  | .ok off =>
      match t.data_.get? off with
      | some v => .ok v
      | none => .error (.outside_buffer off t.data_.length)

/-- A valid index for a shape: as many entries as the shape, each within
`[0, shape[i])`. -/
def ValidIndex (shape idx : List Int) : Prop :=
  idx.length = shape.length ∧
    ∀ i, i < shape.length → 0 ≤ idx.getD i 0 ∧ idx.getD i 0 < shape.getD i 0

instance (shape idx : List Int) : Decidable (ValidIndex shape idx) := by
  unfold ValidIndex; infer_instance

/-- The states of a tensor object: the one the constructor returns, with any
allocator, and those reached from it by calls of `set` that return. -/
inductive Produced [Zero F] : Tensor F → Prop where
  | new (a : Allocator) (shape : List Int) (t : Tensor F) (h : Tensor.new a shape = .ok t) :
      Produced t
  | set (t : Tensor F) (idx : List Int) (v : F) (h : Produced t)
      (hs : (t.set idx v).1 = .ok ()) : Produced (t.set idx v).2

/-! Notions used in the statements and proofs -/

/-- Exact product of the entries of a shape, as a natural number. -/
def natProd (l : List Int) : Nat := (l.map Int.toNat).prod

/-- What the constructor establishes and `set` keeps. -/
structure WF (t : Tensor F) : Prop where
  ne : t.shape_ ≠ []
  pos : ∀ s ∈ t.shape_, 0 < s
  strides_len : t.strides_.length = t.shape_.length
  strides_val : ∀ j, j < t.shape_.length →
    t.strides_.getD j 0 = natProd (t.shape_.drop (j + 1)) % SIZE_T_MOD
  data_len : t.data_.length = t.size

/-- Exact value of `idx[i] * strides[i] + idx[i+1] * strides[i+1] + ...` for the
entries still to be visited. -/
def dotFrom (strides : List Nat) : List Int → Nat → Nat
  | [], _ => 0
  | x :: xs, i => x.toNat * strides.getD i 0 + dotFrom strides xs (i + 1)

/-- Row-major position of an index in a shape, with exact arithmetic:
`idx[0] * (shape[1] * ... ) + (position of the rest in the rest of the shape)`. -/
def flat : List Int → List Int → Nat
  | _ :: ss, x :: xs => x.toNat * natProd ss + flat ss xs
  | _, _ => 0

/-- An index the code rejects, in the words of the bounds check: wrong number of
entries, or an entry that is negative or not below the shape entry of its axis. -/
def BadIndex (shape idx : List Int) : Prop :=
  idx.length ≠ shape.length ∨
    ∃ i, i < idx.length ∧ (idx.getD i 0 < 0 ∨ idx.getD i 0 ≥ shape.getD i 0)

/-- The predicate of the data model: `shape` is non-empty with positive entries,
`strides` has the length of `shape`, the buffer has `size()` elements and `ndim()`
is the number of shape entries. -/
def Invariant (t : Tensor F) : Prop :=
  t.shape_ ≠ [] ∧ (∀ s ∈ t.shape_, 0 < s) ∧ t.strides_.length = t.shape_.length ∧
    t.data_.length = t.size ∧ t.ndim = (t.shape_.length : Int)

/-- What one `<<` writes to `std::cout`: a string literal, an `int` or a `float`. -/
inductive Out (F : Type) where
  | text (s : String) : Out F
  | int (n : Int) : Out F
  | value (v : F) : Out F
  deriving DecidableEq, Repr

/-- How a call of `set` continues in a caller: the tensor after the call when it
returns, the fault when it does not. -/
def after_set (r : Except Fault Unit × Tensor F) : Except Fault (Tensor F) :=
  match r.1 with
  | .ok _ => .ok r.2
  | .error e => .error e

/-- The member `print`, returning the sequence of items written to `std::cout`.
The loops over `shape_` and `data_` visit the entries with their positions `i`; the
loops over `r < rows` and `c < cols` call `get({r, c})`, whose exception would leave
`print`. -/
def Tensor.print (t : Tensor F) : Except Fault (List (Out F)) :=
  let out0 : List (Out F) := [.text "Tensor shape: ["]
  let out1 := t.shape_.enum.foldl
    (fun out p => out ++ [.int p.2, .text (if p.1 + 1 < t.shape_.length then ", " else "")])
    out0
  let out2 := out1 ++ [.text "]\n"]
  if t.shape_.length = 2 then
    let rows := t.shape_.getD 0 0
    let cols := t.shape_.getD 1 0
    (List.range rows.toNat).foldlM (fun (out : List (Out F)) (r : Nat) => do
      let row ← (List.range cols.toNat).foldlM (fun (out : List (Out F)) (c : Nat) => do
        let x ← t.get [(r : Int), (c : Int)]
        pure (out ++ [.value x, .text (if (c : Int) + 1 < cols then ", " else " ")]))
        (out ++ [.text "[ "])
      pure (row ++ [.text "]\n"])) out2
  else
    .ok (t.data_.enum.foldl
      (fun out p => out ++ [.value p.2, .text (if p.1 + 1 < t.data_.length then ", " else "\n")])
      (out2 ++ [.text "Data (flat): "]))

/-- The loops of `main` that fill the tensor: `int val = 1;` then, for `i` in `0..1`
and `j` in `0..2`, `t.set({i, j}, static_cast<float>(val++))`.  The conversion
`static_cast<float>` is the parameter `cast`. -/
def main_fill (cast : Int → F) (t : Tensor F) : Except Fault (Tensor F × Int) :=
  (List.range 2).foldlM (fun (st : Tensor F × Int) (i : Nat) =>
    (List.range 3).foldlM (fun (st : Tensor F × Int) (j : Nat) => do
      let t ← after_set (st.1.set [(i : Int), (j : Int)] (cast st.2))
      pure (t, st.2 + 1)) st) (t, 1)

/-- The function `main` of `main.cpp` without its own writes to `std::cout`: the
2x3 tensor after the fill, the value of `t.get({1,2})`, and the 2x2x2 tensor after its
two calls of `set`.  The constants `1.5f` and `9.25f` are the parameters `c1`, `c2`;
both tensors are constructed with the allocator `a`. -/
def main [Zero F] (a : Allocator) (cast : Int → F) (c1 c2 : F) :
    Except Fault (Tensor F × F × Tensor F) := do
  let t ← Tensor.new a [2, 3]
  let filled ← main_fill cast t
  let _ ← filled.1.print
  let x ← filled.1.get [1, 2]
  let t3 ← Tensor.new a [2, 2, 2]
  let t3 ← after_set (t3.set [0, 0, 0] c1)
  let t3 ← after_set (t3.set [1, 1, 1] c2)
  let _ ← t3.print
  pure (filled.1, x, t3)

/-- The items of a line, each followed by the separator `sep`, the last one by
`last`. -/
def sepList (sep last : String) : List (Out F) → List (Out F)
  | [] => []
  | [x] => [x, .text last]
  | x :: y :: rest => x :: .text sep :: sepList sep last (y :: rest)

/-- Lexicographic order of index sequences, the first axis most significant. -/
def lexLt : List Int → List Int → Prop
  | x :: xs, y :: ys => x < y ∨ (x = y ∧ lexLt xs ys)
  | _, _ => False

instance decLexLt : (a b : List Int) → Decidable (lexLt a b)
  | [], _ => isFalse (fun h => by simp [lexLt] at h)
  | _ :: _, [] => isFalse (fun h => by simp [lexLt] at h)
  | x :: xs, y :: ys =>
      have : Decidable (lexLt xs ys) := decLexLt xs ys
      decidable_of_iff (x < y ∨ (x = y ∧ lexLt xs ys)) (by simp [lexLt])

/-- The valid indices of a shape listed in lexicographic order: the last axis
varies fastest. -/
def allIndices : List Int → List (List Int)
  | [] => [[]]
  | s :: ss =>
      (List.range s.toNat).flatMap (fun x => (allIndices ss).map (fun xs => (x : Int) :: xs))

/-- Modelled from the spec: the member `reshape`, which `tensor.h` declares and
`tensor.cpp` does not define.  Sections 4.5 and 7: it fails with the invalid-argument
condition when the new shape is empty, has an entry `<= 0`, or has a product
different from the current element count, and then leaves the tensor as it was;
otherwise it replaces the shape, recomputes the strides and keeps the flat buffer. -/
def Tensor.reshape (t : Tensor F) (new_shape : List Int) : Except Fault Unit × Tensor F :=
  if new_shape.isEmpty || new_shape.any (fun s => decide (s ≤ 0))
      || decide (new_shape.prod ≠ (t.size : Int)) then
    (.error (.invalid_argument .unspecified), t)
  else (.ok (), ({ t with shape_ := new_shape }).compute_strides)

/-- Modelled from the spec: the member `add`, which `tensor.h` declares and
`tensor.cpp` does not define.  Section 4.6: it fails with the invalid-argument
condition when the shapes differ; otherwise it produces a new tensor of the same
shape whose buffer holds, at each flat offset, the sum of the two operands' values at
that offset.  The sum of two `float` values is the operation `+` of `F`. -/
def Tensor.add [Add F] (a b : Tensor F) : Except Fault (Tensor F) :=
  if a.shape_ ≠ b.shape_ then .error (.invalid_argument .unspecified)
  else .ok { a with data_ := List.zipWith (fun x y => x + y) a.data_ b.data_ }

/-- Modelled from the spec: the member `multiply`, which `tensor.h` declares and
`tensor.cpp` does not define.  Section 4.6, as `add` with the product `*` of `F`. -/
def Tensor.multiply [Mul F] (a b : Tensor F) : Except Fault (Tensor F) :=
  if a.shape_ ≠ b.shape_ then .error (.invalid_argument .unspecified)
  else .ok { a with data_ := List.zipWith (fun x y => x * y) a.data_ b.data_ }

/-- The element `input[i][j]` of a tensor, read with `get`; 0 stands for a read that
does not return. -/
def Tensor.at2 [Zero F] (t : Tensor F) (i j : Int) : F :=
  match t.get [i, j] with
  | .ok x => x
  | .error _ => 0

/-- Modelled from the spec: the member `transpose2D`, which `tensor.h` declares and
`tensor.cpp` does not define.  Section 4.7: it fails with the invalid-argument
condition when the number of dimensions is not 2; otherwise it produces a new tensor
of shape `[cols, rows]` where `output[j][i] = input[i][j]`. -/
def Tensor.transpose2D [Zero F] (t : Tensor F) : Except Fault (Tensor F) :=
  if t.shape_.length ≠ 2 then .error (.invalid_argument .unspecified)
  else
    let rows := t.shape_.getD 0 0
    let cols := t.shape_.getD 1 0
    let r : Tensor F := { shape_ := [cols, rows], strides_ := [], data_ := [] }
    .ok { r.compute_strides with data_ := (List.range cols.toNat).flatMap (fun (j : Nat) =>
            (List.range rows.toNat).map (fun (i : Nat) => t.at2 (i : Int) (j : Int))) }

/-- The `float` items of an output, in the order written. -/
def values : List (Out F) → List F
  | [] => []
  | .value v :: rest => v :: values rest
  | _ :: rest => values rest

/-! Arithmetic of `size_t` -/

theorem SIZE_T_MOD_pos : 0 < SIZE_T_MOD := by decide

theorem to_size_t_of_nonneg {s : Int} (h : 0 ≤ s) : to_size_t s = s.toNat % SIZE_T_MOD := by
  unfold to_size_t SIZE_T_MOD
  omega

theorem to_size_t_lt (s : Int) : to_size_t s < SIZE_T_MOD := by
  unfold to_size_t SIZE_T_MOD
  omega

@[simp]
theorem natProd_nil : natProd [] = 1 := rfl

@[simp]
theorem natProd_cons (s : Int) (l : List Int) :
    natProd (s :: l) = s.toNat * natProd l := by
  simp [natProd]

theorem natProd_pos {l : List Int} (h : ∀ s ∈ l, 0 < s) : 0 < natProd l := by
  induction l with
  | nil => simp
  | cons s l ih =>
    have hs : 0 < s := h s (List.mem_cons_self _ _)
    have hl := ih (fun x hx => h x (List.mem_cons_of_mem _ hx))
    rw [natProd_cons]
    have : 0 < s.toNat := by omega
    positivity

theorem natProd_cast {l : List Int} (h : ∀ s ∈ l, 0 < s) : (natProd l : Int) = l.prod := by
  induction l with
  | nil => simp
  | cons s l ih =>
    have hs : 0 < s := h s (List.mem_cons_self _ _)
    have hl := ih (fun x hx => h x (List.mem_cons_of_mem _ hx))
    rw [natProd_cons, List.prod_cons, Nat.cast_mul, hl, Int.toNat_of_nonneg hs.le]

/-! `size` and `compute_strides` -/

theorem size_foldl_mod (l : List Int) (h : ∀ s ∈ l, 0 ≤ s) (n : Nat) :
    (l.foldl (fun n s => (n * to_size_t s) % SIZE_T_MOD) n) % SIZE_T_MOD
      = (n * natProd l) % SIZE_T_MOD := by
  induction l generalizing n with
  | nil => simp
  | cons s l ih =>
    have hs : 0 ≤ s := h s (List.mem_cons_self _ _)
    rw [List.foldl_cons, ih (fun x hx => h x (List.mem_cons_of_mem _ hx)),
      to_size_t_of_nonneg hs, natProd_cons]
    have key : (n * (s.toNat % SIZE_T_MOD)) % SIZE_T_MOD * natProd l
        ≡ n * s.toNat * natProd l [MOD SIZE_T_MOD] :=
      ((Nat.mod_modEq _ _).trans ((Nat.mod_modEq s.toNat SIZE_T_MOD).mul_left n)).mul_right _
    rw [← Nat.mul_assoc]
    exact key

theorem size_foldl_lt (l : List Int) (n : Nat) (hn : n < SIZE_T_MOD) :
    (l.foldl (fun n s => (n * to_size_t s) % SIZE_T_MOD) n) < SIZE_T_MOD := by
  induction l generalizing n with
  | nil => simpa using hn
  | cons s l ih =>
    rw [List.foldl_cons]
    exact ih _ (Nat.mod_lt _ SIZE_T_MOD_pos)

/-- The value of `size()` is the product of the shape entries modulo `2 ^ 64`. -/
theorem size_eq_mod (t : Tensor F) (h : ∀ s ∈ t.shape_, 0 ≤ s) :
    t.size = natProd t.shape_ % SIZE_T_MOD := by
  have h1 := size_foldl_mod t.shape_ h 1
  have h2 := size_foldl_lt t.shape_ 1 (by decide)
  unfold Tensor.size
  rw [Nat.mod_eq_of_lt h2, Nat.one_mul] at h1
  exact h1

theorem natProd_drop_succ (shape : List Int) (k : Nat) (hk : k < shape.length) :
    natProd (shape.drop k) = (shape.getD k 0).toNat * natProd (shape.drop (k + 1)) := by
  rw [List.drop_eq_getElem_cons hk, natProd_cons, List.getD_eq_getElem _ _ hk]

theorem compute_strides_loop_spec (shape : List Int) (hnn : ∀ s ∈ shape, 0 ≤ s) :
    ∀ (k : Nat) (strides : List Nat) (stride : Nat), k ≤ shape.length →
      strides.length = shape.length →
      stride = natProd (shape.drop k) % SIZE_T_MOD →
      (∀ j, k ≤ j → j < shape.length →
        strides.getD j 0 = natProd (shape.drop (j + 1)) % SIZE_T_MOD) →
      (compute_strides_loop shape k strides stride).length = shape.length ∧
      ∀ j, j < shape.length →
        (compute_strides_loop shape k strides stride).getD j 0
          = natProd (shape.drop (j + 1)) % SIZE_T_MOD := by
  intro k
  induction k with
  | zero =>
    intro strides stride _ hlen _ hinv
    exact ⟨hlen, fun j hj => hinv j (Nat.zero_le _) hj⟩
  | succ k ih =>
    intro strides stride hk hlen hstride hinv
    have hk2 : k < shape.length := hk
    have hmem : shape.getD k 0 ∈ shape := by
      rw [List.getD_eq_getElem _ _ hk2]; exact List.getElem_mem _
    unfold compute_strides_loop
    apply ih
    · omega
    · simpa using hlen
    · rw [natProd_drop_succ shape k hk2, hstride, to_size_t_of_nonneg (hnn _ hmem)]
      rw [← Nat.mul_mod, Nat.mul_comm]
    · intro j hkj hj
      by_cases hjk : j = k
      · subst hjk
        rw [List.getD_eq_getElem _ _ (by simpa [hlen] using hj)]
        simp [hstride]
      · rw [List.getD_eq_getElem?_getD, List.getElem?_set_ne (Ne.symm hjk),
          ← List.getD_eq_getElem?_getD]
        exact hinv j (by omega) hj

/-! The constructor and the invariant of its tensors -/

theorem new_checks_passed [Zero F] (a : Allocator) (shape : List Int) (hne : shape ≠ [])
    (hpos : ∀ s ∈ shape, 0 < s) :
    (Tensor.new a shape : Except Fault (Tensor F))
      = match (assign a (shape.foldl (fun n s => (n * to_size_t s) % SIZE_T_MOD) 1)
            : Except Fault (List F)) with
        | .error e => .error e
        | .ok data => .ok
            { shape_ := shape,
              strides_ := compute_strides_loop shape shape.length
                (List.replicate shape.length 0) 1,
              data_ := data } := by
  have h1 : shape.isEmpty = false := by
    cases shape with
    | nil => exact absurd rfl hne
    | cons a l => rfl
  have h2 : shape.any (fun s => decide (s ≤ 0)) = false := by
    rw [Bool.eq_false_iff]
    intro hany
    obtain ⟨s, hs, hle⟩ := List.any_eq_true.mp hany
    have := hpos s hs
    simp at hle
    omega
  simp [Tensor.new, Tensor.compute_strides, Tensor.size, h1, h2]

theorem new_of_valid [Zero F] (a : Allocator) (shape : List Int) (hne : shape ≠ [])
    (hpos : ∀ s ∈ shape, 0 < s)
    (hmax : shape.foldl (fun n s => (n * to_size_t s) % SIZE_T_MOD) 1 ≤ a.max_size)
    (hav : shape.foldl (fun n s => (n * to_size_t s) % SIZE_T_MOD) 1 ≤ a.available) :
    (Tensor.new a shape : Except Fault (Tensor F)) = .ok
      { shape_ := shape,
        strides_ := compute_strides_loop shape shape.length (List.replicate shape.length 0) 1,
        data_ := List.replicate
          (shape.foldl (fun n s => (n * to_size_t s) % SIZE_T_MOD) 1) 0 } := by
  rw [new_checks_passed a shape hne hpos]
  simp [assign, Nat.not_lt.mpr hmax, Nat.not_lt.mpr hav]

theorem new_length_error [Zero F] (a : Allocator) (shape : List Int) (hne : shape ≠ [])
    (hpos : ∀ s ∈ shape, 0 < s)
    (hmax : a.max_size < shape.foldl (fun n s => (n * to_size_t s) % SIZE_T_MOD) 1) :
    (Tensor.new a shape : Except Fault (Tensor F)) = .error .length_error := by
  rw [new_checks_passed a shape hne hpos]
  simp [assign, hmax]

theorem new_bad_alloc [Zero F] (a : Allocator) (shape : List Int) (hne : shape ≠ [])
    (hpos : ∀ s ∈ shape, 0 < s)
    (hmax : shape.foldl (fun n s => (n * to_size_t s) % SIZE_T_MOD) 1 ≤ a.max_size)
    (hav : a.available < shape.foldl (fun n s => (n * to_size_t s) % SIZE_T_MOD) 1) :
    (Tensor.new a shape : Except Fault (Tensor F)) = .error .bad_alloc := by
  rw [new_checks_passed a shape hne hpos]
  simp [assign, Nat.not_lt.mpr hmax, hav]

theorem new_empty [Zero F] (a : Allocator) :
    (Tensor.new a [] : Except Fault (Tensor F)) = .error (.invalid_argument .shape_empty) :=
  rfl

theorem new_not_positive [Zero F] (a : Allocator) (shape : List Int) (hne : shape ≠ [])
    (h : ∃ s ∈ shape, s ≤ 0) :
    (Tensor.new a shape : Except Fault (Tensor F))
      = .error (.invalid_argument .shape_not_positive) := by
  have h1 : shape.isEmpty = false := by
    cases shape with
    | nil => exact absurd rfl hne
    | cons a l => rfl
  have h2 : shape.any (fun s => decide (s ≤ 0)) = true := by
    obtain ⟨s, hs, hle⟩ := h
    exact List.any_eq_true.mpr ⟨s, hs, by simpa using hle⟩
  simp [Tensor.new, h1, h2]

theorem new_ok_inv [Zero F] {a : Allocator} {shape : List Int} {t : Tensor F}
    (h : Tensor.new a shape = .ok t) :
    shape ≠ [] ∧ (∀ s ∈ shape, 0 < s) ∧
      t = { shape_ := shape,
            strides_ := compute_strides_loop shape shape.length
              (List.replicate shape.length 0) 1,
            data_ := List.replicate
              (shape.foldl (fun n s => (n * to_size_t s) % SIZE_T_MOD) 1) 0 } ∧
      t.size ≤ a.max_size ∧ t.size ≤ a.available := by
  by_cases hne : shape = []
  · subst hne; rw [new_empty] at h; cases h
  · by_cases hpos : ∀ s ∈ shape, 0 < s
    · by_cases hmax : a.max_size < shape.foldl (fun n s => (n * to_size_t s) % SIZE_T_MOD) 1
      · rw [new_length_error a shape hne hpos hmax] at h; cases h
      · by_cases hav : a.available
            < shape.foldl (fun n s => (n * to_size_t s) % SIZE_T_MOD) 1
        · rw [new_bad_alloc a shape hne hpos (Nat.not_lt.mp hmax) hav] at h; cases h
        · rw [new_of_valid a shape hne hpos (Nat.not_lt.mp hmax) (Nat.not_lt.mp hav)] at h
          injection h with h
          subst h
          exact ⟨hne, hpos, rfl, Nat.not_lt.mp hmax, Nat.not_lt.mp hav⟩
    · push_neg at hpos
      rw [new_not_positive a shape hne hpos] at h
      cases h

theorem new_wf [Zero F] {a : Allocator} {shape : List Int} {t : Tensor F}
    (h : Tensor.new a shape = .ok t) : WF t := by
  obtain ⟨hne, hpos, ht, _, _⟩ := new_ok_inv h
  have hnn : ∀ s ∈ shape, 0 ≤ s := fun s hs => (hpos s hs).le
  have hspec := compute_strides_loop_spec shape hnn shape.length
    (List.replicate shape.length 0) 1 (Nat.le_refl _) (by simp)
    (by simp [SIZE_T_MOD]) (fun j h1 h2 => absurd h2 (by omega))
  subst ht
  exact ⟨hne, hpos, hspec.1, hspec.2, by simp [Tensor.size]⟩

theorem set_shape (t : Tensor F) (idx : List Int) (v : F) :
    (t.set idx v).2.shape_ = t.shape_ := by
  unfold Tensor.set
  split
  · rfl
  · split <;> rfl

theorem set_strides (t : Tensor F) (idx : List Int) (v : F) :
    (t.set idx v).2.strides_ = t.strides_ := by
  unfold Tensor.set
  split
  · rfl
  · split <;> rfl

theorem set_data_length (t : Tensor F) (idx : List Int) (v : F) :
    (t.set idx v).2.data_.length = t.data_.length := by
  unfold Tensor.set
  split
  · rfl
  · split
    · simp
    · rfl

theorem set_wf {t : Tensor F} (h : WF t) (idx : List Int) (v : F) : WF (t.set idx v).2 := by
  have h1 := set_shape t idx v
  have h2 := set_strides t idx v
  have h3 := set_data_length t idx v
  refine ⟨?_, ?_, ?_, ?_, ?_⟩
  · rw [h1]; exact h.ne
  · rw [h1]; exact h.pos
  · rw [h1, h2]; exact h.strides_len
  · rw [h1, h2]; exact h.strides_val
  · rw [h3, h.data_len]; simp [Tensor.size, h1]

theorem produced_wf [Zero F] {t : Tensor F} (h : Produced t) : WF t := by
  induction h with
  | new a shape t h => exact new_wf h
  | set t idx v _ _ ih => exact set_wf ih idx v

theorem produced_set_eq [Zero F] {t : Tensor F} (h : Produced t) (idx : List Int) (v : F)
    (u : Tensor F) (hs : t.set idx v = (.ok (), u)) : Produced u := by
  have h1 : (t.set idx v).1 = .ok () := by rw [hs]
  have h2 : (t.set idx v).2 = u := by rw [hs]
  rw [← h2]
  exact Produced.set t idx v h h1

/-- The tensor of shape `{2, 3}` after `main` has filled it with 1..6 is a state of
a constructed tensor. -/
theorem produced_filled_2_3 :
    Produced (⟨[2, 3], [3, 1], [1, 2, 3, 4, 5, 6]⟩ : Tensor Int) := by
  have hp0 : Produced (⟨[2, 3], [3, 1], [0, 0, 0, 0, 0, 0]⟩ : Tensor Int) :=
    Produced.new sample_allocator [2, 3] _ (by decide)
  have hp1 := produced_set_eq hp0 [0, 0] 1 ⟨[2, 3], [3, 1], [1, 0, 0, 0, 0, 0]⟩ (by decide)
  have hp2 := produced_set_eq hp1 [0, 1] 2 ⟨[2, 3], [3, 1], [1, 2, 0, 0, 0, 0]⟩ (by decide)
  have hp3 := produced_set_eq hp2 [0, 2] 3 ⟨[2, 3], [3, 1], [1, 2, 3, 0, 0, 0]⟩ (by decide)
  have hp4 := produced_set_eq hp3 [1, 0] 4 ⟨[2, 3], [3, 1], [1, 2, 3, 4, 0, 0]⟩ (by decide)
  have hp5 := produced_set_eq hp4 [1, 1] 5 ⟨[2, 3], [3, 1], [1, 2, 3, 4, 5, 0]⟩ (by decide)
  exact produced_set_eq hp5 [1, 2] 6 ⟨[2, 3], [3, 1], [1, 2, 3, 4, 5, 6]⟩ (by decide)

/-- A second tensor of shape `{2, 3}`, filled with 10, 20, ..., 60. -/
theorem produced_tens_2_3 :
    Produced (⟨[2, 3], [3, 1], [10, 20, 30, 40, 50, 60]⟩ : Tensor Int) := by
  have hp0 : Produced (⟨[2, 3], [3, 1], [0, 0, 0, 0, 0, 0]⟩ : Tensor Int) :=
    Produced.new sample_allocator [2, 3] _ (by decide)
  have hp1 := produced_set_eq hp0 [0, 0] 10 ⟨[2, 3], [3, 1], [10, 0, 0, 0, 0, 0]⟩ (by decide)
  have hp2 := produced_set_eq hp1 [0, 1] 20 ⟨[2, 3], [3, 1], [10, 20, 0, 0, 0, 0]⟩ (by decide)
  have hp3 := produced_set_eq hp2 [0, 2] 30 ⟨[2, 3], [3, 1], [10, 20, 30, 0, 0, 0]⟩ (by decide)
  have hp4 := produced_set_eq hp3 [1, 0] 40 ⟨[2, 3], [3, 1], [10, 20, 30, 40, 0, 0]⟩
    (by decide)
  have hp5 := produced_set_eq hp4 [1, 1] 50 ⟨[2, 3], [3, 1], [10, 20, 30, 40, 50, 0]⟩
    (by decide)
  exact produced_set_eq hp5 [1, 2] 60 ⟨[2, 3], [3, 1], [10, 20, 30, 40, 50, 60]⟩ (by decide)

/-- A tensor of shape `{2, 2, 2}` filled with 1..8 in flat order. -/
theorem produced_filled_2_2_2 :
    Produced (⟨[2, 2, 2], [4, 2, 1], [1, 2, 3, 4, 5, 6, 7, 8]⟩ : Tensor Int) := by
  have hp0 : Produced (⟨[2, 2, 2], [4, 2, 1], [0, 0, 0, 0, 0, 0, 0, 0]⟩ : Tensor Int) :=
    Produced.new sample_allocator [2, 2, 2] _ (by decide)
  have hp1 := produced_set_eq hp0 [0, 0, 0] 1
    ⟨[2, 2, 2], [4, 2, 1], [1, 0, 0, 0, 0, 0, 0, 0]⟩ (by decide)
  have hp2 := produced_set_eq hp1 [0, 0, 1] 2
    ⟨[2, 2, 2], [4, 2, 1], [1, 2, 0, 0, 0, 0, 0, 0]⟩ (by decide)
  have hp3 := produced_set_eq hp2 [0, 1, 0] 3
    ⟨[2, 2, 2], [4, 2, 1], [1, 2, 3, 0, 0, 0, 0, 0]⟩ (by decide)
  have hp4 := produced_set_eq hp3 [0, 1, 1] 4
    ⟨[2, 2, 2], [4, 2, 1], [1, 2, 3, 4, 0, 0, 0, 0]⟩ (by decide)
  have hp5 := produced_set_eq hp4 [1, 0, 0] 5
    ⟨[2, 2, 2], [4, 2, 1], [1, 2, 3, 4, 5, 0, 0, 0]⟩ (by decide)
  have hp6 := produced_set_eq hp5 [1, 0, 1] 6
    ⟨[2, 2, 2], [4, 2, 1], [1, 2, 3, 4, 5, 6, 0, 0]⟩ (by decide)
  have hp7 := produced_set_eq hp6 [1, 1, 0] 7
    ⟨[2, 2, 2], [4, 2, 1], [1, 2, 3, 4, 5, 6, 7, 0]⟩ (by decide)
  exact produced_set_eq hp7 [1, 1, 1] 8
    ⟨[2, 2, 2], [4, 2, 1], [1, 2, 3, 4, 5, 6, 7, 8]⟩ (by decide)

/-! The loop of `index_from_indices` -/

theorem index_loop_ok (shape : List Int) (strides : List Nat) :
    ∀ (rest : List Int) (i offset : Nat), offset < SIZE_T_MOD →
      (∀ j, j < rest.length → 0 ≤ rest.getD j 0 ∧ rest.getD j 0 < shape.getD (i + j) 0) →
      index_loop shape strides rest i offset
        = .ok ((offset + dotFrom strides rest i) % SIZE_T_MOD) := by
  intro rest
  induction rest with
  | nil =>
    intro i offset hoff _
    simp [index_loop, dotFrom, Nat.mod_eq_of_lt hoff]
  | cons x xs ih =>
    intro i offset hoff hval
    have h0 := hval 0 (by simp)
    simp only [List.getD_cons_zero, Nat.add_zero] at h0
    have hcond : ¬ (x < 0 ∨ x ≥ shape.getD i 0) := by omega
    rw [index_loop, if_neg hcond]
    rw [ih (i + 1) _ (Nat.mod_lt _ SIZE_T_MOD_pos)]
    · rw [to_size_t_of_nonneg h0.1, dotFrom]
      congr 1
      have key : (offset + x.toNat % SIZE_T_MOD * strides.getD i 0 % SIZE_T_MOD) % SIZE_T_MOD
          + dotFrom strides xs (i + 1)
          ≡ offset + x.toNat * strides.getD i 0 + dotFrom strides xs (i + 1)
            [MOD SIZE_T_MOD] :=
        ((Nat.mod_modEq _ _).trans
          (((Nat.mod_modEq _ _).trans
            ((Nat.mod_modEq x.toNat SIZE_T_MOD).mul_right _)).add_left offset)).add_right _
      rw [← Nat.add_assoc]
      exact key
    · intro j hj
      have := hval (j + 1) (by simpa using hj)
      simpa [Nat.add_assoc, Nat.add_comm 1 j] using this

theorem index_loop_error (shape : List Int) (strides : List Nat) :
    ∀ (rest : List Int) (i offset j : Nat), j < rest.length →
      (∀ k, k < j → 0 ≤ rest.getD k 0 ∧ rest.getD k 0 < shape.getD (i + k) 0) →
      (rest.getD j 0 < 0 ∨ shape.getD (i + j) 0 ≤ rest.getD j 0) →
      index_loop shape strides rest i offset
        = .error (.out_of_range
            (.index_bounds (rest.getD j 0) (i + j) (shape.getD (i + j) 0))) := by
  intro rest
  induction rest with
  | nil => intro i offset j hj; simp at hj
  | cons x xs ih =>
    intro i offset j hj hbefore hbad
    cases j with
    | zero =>
      simp only [List.getD_cons_zero, Nat.add_zero] at hbad ⊢
      have hcond : x < 0 ∨ x ≥ shape.getD i 0 := by omega
      rw [index_loop, if_pos hcond]
    | succ j =>
      have h0 := hbefore 0 (by omega)
      simp only [List.getD_cons_zero, Nat.add_zero] at h0
      have hcond : ¬ (x < 0 ∨ x ≥ shape.getD i 0) := by omega
      rw [index_loop, if_neg hcond]
      have hj2 : j < xs.length := by simpa using hj
      have := ih (i + 1) ((offset + (to_size_t x * strides.getD i 0) % SIZE_T_MOD) % SIZE_T_MOD)
        j hj2
        (fun k hk => by
          have := hbefore (k + 1) (by omega)
          simpa [Nat.add_assoc, Nat.add_comm 1 k] using this)
        (by simpa [Nat.add_assoc, Nat.add_comm 1 j] using hbad)
      simpa [Nat.add_assoc, Nat.add_comm 1 j] using this

theorem dotFrom_eq_sum (strides : List Nat) :
    ∀ (rest : List Int) (i : Nat),
      dotFrom strides rest i
        = ∑ j in Finset.range rest.length, (rest.getD j 0).toNat * strides.getD (i + j) 0 := by
  intro rest
  induction rest with
  | nil => intro i; simp [dotFrom]
  | cons x xs ih =>
    intro i
    rw [dotFrom, ih (i + 1), List.length_cons, Finset.sum_range_succ', Nat.add_comm]
    congr 1
    apply Finset.sum_congr rfl
    intro j _
    have : i + 1 + j = i + (j + 1) := by omega
    rw [this, List.getD_cons_succ]

/-! Row-major numbering of the valid indices -/

theorem validIndex_nil_left (idx : List Int) : ValidIndex [] idx ↔ idx = [] := by
  simp [ValidIndex]

theorem validIndex_nil_right (s : Int) (ss : List Int) : ¬ ValidIndex (s :: ss) [] := by
  simp [ValidIndex]

theorem validIndex_cons (s x : Int) (ss xs : List Int) :
    ValidIndex (s :: ss) (x :: xs) ↔ (0 ≤ x ∧ x < s) ∧ ValidIndex ss xs := by
  unfold ValidIndex
  constructor
  · rintro ⟨hlen, h⟩
    refine ⟨by simpa using h 0 (by simp), by simpa using hlen, fun i hi => ?_⟩
    simpa using h (i + 1) (by simpa using hi)
  · rintro ⟨h0, hlen, h⟩
    refine ⟨by simpa using hlen, fun i hi => ?_⟩
    cases i with
    | zero => simpa using h0
    | succ i => simpa using h i (by simpa using hi)

theorem flat_lt : ∀ (shape idx : List Int), ValidIndex shape idx →
    flat shape idx < natProd shape := by
  intro shape
  induction shape with
  | nil =>
    intro idx h
    rw [(validIndex_nil_left idx).mp h]
    simp [flat]
  | cons s ss ih =>
    intro idx h
    cases idx with
    | nil => exact absurd h (validIndex_nil_right s ss)
    | cons x xs =>
      obtain ⟨⟨h0, h1⟩, hv⟩ := (validIndex_cons s x ss xs).mp h
      have hr := ih xs hv
      have hx : x.toNat + 1 ≤ s.toNat := by omega
      have := Nat.mul_le_mul_right (natProd ss) hx
      rw [flat, natProd_cons]
      nlinarith

theorem flat_inj : ∀ (shape idx jdx : List Int), ValidIndex shape idx →
    ValidIndex shape jdx → flat shape idx = flat shape jdx → idx = jdx := by
  intro shape
  induction shape with
  | nil =>
    intro idx jdx hi hj _
    rw [(validIndex_nil_left idx).mp hi, (validIndex_nil_left jdx).mp hj]
  | cons s ss ih =>
    intro idx jdx hi hj heq
    cases idx with
    | nil => exact absurd hi (validIndex_nil_right s ss)
    | cons x xs =>
      cases jdx with
      | nil => exact absurd hj (validIndex_nil_right s ss)
      | cons y ys =>
        obtain ⟨⟨hx0, _⟩, hxv⟩ := (validIndex_cons s x ss xs).mp hi
        obtain ⟨⟨hy0, _⟩, hyv⟩ := (validIndex_cons s y ss ys).mp hj
        have hrx := flat_lt ss xs hxv
        have hry := flat_lt ss ys hyv
        simp only [flat] at heq
        have hxy : x.toNat = y.toNat := by
          rcases Nat.lt_trichotomy x.toNat y.toNat with h | h | h
          · have := Nat.mul_le_mul_right (natProd ss) (show x.toNat + 1 ≤ y.toNat from h)
            nlinarith
          · exact h
          · have := Nat.mul_le_mul_right (natProd ss) (show y.toNat + 1 ≤ x.toNat from h)
            nlinarith
        have hrest : flat ss xs = flat ss ys := by
          rw [hxy] at heq
          exact Nat.add_left_cancel heq
        have hxy2 : x = y := by omega
        rw [hxy2, ih xs ys hxv hyv hrest]

theorem flat_surj : ∀ (shape : List Int), (∀ s ∈ shape, 0 < s) →
    ∀ k, k < natProd shape → ∃ idx, ValidIndex shape idx ∧ flat shape idx = k := by
  intro shape
  induction shape with
  | nil =>
    intro _ k hk
    refine ⟨[], (validIndex_nil_left []).mpr rfl, ?_⟩
    simp at hk
    simp [flat, hk]
  | cons s ss ih =>
    intro hpos k hk
    have hss : ∀ x ∈ ss, 0 < x := fun x hx => hpos x (List.mem_cons_of_mem _ hx)
    have hP := natProd_pos hss
    obtain ⟨xs, hxv, hxf⟩ := ih hss (k % natProd ss) (Nat.mod_lt _ hP)
    rw [natProd_cons] at hk
    have hq : k / natProd ss < s.toNat := Nat.div_lt_of_lt_mul (by rwa [Nat.mul_comm])
    refine ⟨((k / natProd ss : Nat) : Int) :: xs, ?_, ?_⟩
    · rw [validIndex_cons]
      have hs : 0 < s := hpos s (List.mem_cons_self _ _)
      have hcast : ((k / natProd ss : Nat) : Int) < (s.toNat : Int) := by exact_mod_cast hq
      rw [Int.toNat_of_nonneg hs.le] at hcast
      exact ⟨⟨Int.natCast_nonneg _, hcast⟩, hxv⟩
    · rw [flat, hxf, Int.toNat_ofNat]
      exact Nat.div_add_mod' k (natProd ss)

theorem natProd_drop_le {l : List Int} (h : ∀ s ∈ l, 0 < s) (k : Nat) :
    natProd (l.drop k) ≤ natProd l := by
  induction l generalizing k with
  | nil => simp
  | cons s l ih =>
    have hl : ∀ x ∈ l, 0 < x := fun x hx => h x (List.mem_cons_of_mem _ hx)
    cases k with
    | zero => simp
    | succ k =>
      have hs : 0 < s := h s (List.mem_cons_self _ _)
      have hs2 : 1 ≤ s.toNat := by omega
      rw [List.drop_succ_cons, natProd_cons]
      calc natProd (l.drop k) ≤ natProd l := ih hl k
        _ = 1 * natProd l := (Nat.one_mul _).symm
        _ ≤ s.toNat * natProd l := Nat.mul_le_mul_right _ hs2

theorem dotFrom_eq_flat (shape : List Int) (strides : List Nat) :
    ∀ (rest : List Int) (i : Nat), i + rest.length = shape.length →
      (∀ j, j < shape.length → strides.getD j 0 = natProd (shape.drop (j + 1))) →
      dotFrom strides rest i = flat (shape.drop i) rest := by
  intro rest
  induction rest with
  | nil => intro i _ _; cases h : shape.drop i <;> simp [dotFrom, flat]
  | cons x xs ih =>
    intro i hlen hst
    have hi : i < shape.length := by simp at hlen; omega
    rw [List.drop_eq_getElem_cons hi, dotFrom, flat, hst i hi,
      ih (i + 1) (by simp at hlen; omega) hst]

/-! `index_from_indices`, `get` and `set` -/

theorem badIndex_iff_not_valid (shape idx : List Int) :
    BadIndex shape idx ↔ ¬ ValidIndex shape idx := by
  unfold BadIndex ValidIndex
  constructor
  · rintro (h | ⟨i, hi, hbad⟩) ⟨hlen, hv⟩
    · exact h hlen
    · have := hv i (hlen ▸ hi)
      omega
  · intro h
    by_cases hlen : idx.length = shape.length
    · right
      rw [not_and] at h
      have := h hlen
      push_neg at this
      obtain ⟨i, hi, hbad⟩ := this
      refine ⟨i, hlen ▸ hi, ?_⟩
      by_cases h0 : 0 ≤ idx.getD i 0
      · right; exact hbad h0
      · left; omega
    · left; exact hlen

theorem index_from_indices_valid (t : Tensor F) (idx : List Int)
    (h : ValidIndex t.shape_ idx) :
    t.index_from_indices idx = .ok (dotFrom t.strides_ idx 0 % SIZE_T_MOD) := by
  unfold Tensor.index_from_indices
  rw [if_neg (by simpa using h.1)]
  have := index_loop_ok t.shape_ t.strides_ idx 0 0 SIZE_T_MOD_pos
    (fun j hj => by simpa using h.2 j (h.1 ▸ hj))
  simpa using this

theorem index_from_indices_dims (t : Tensor F) (idx : List Int)
    (h : idx.length ≠ t.shape_.length) :
    t.index_from_indices idx
      = .error (.out_of_range (.index_dims idx.length t.shape_.length)) := by
  unfold Tensor.index_from_indices
  rw [if_pos h]

theorem index_from_indices_bounds (t : Tensor F) (idx : List Int)
    (hlen : idx.length = t.shape_.length) (j : Nat) (hj : j < idx.length)
    (hbefore : ∀ k, k < j → 0 ≤ idx.getD k 0 ∧ idx.getD k 0 < t.shape_.getD k 0)
    (hbad : idx.getD j 0 < 0 ∨ idx.getD j 0 ≥ t.shape_.getD j 0) :
    t.index_from_indices idx
      = .error (.out_of_range (.index_bounds (idx.getD j 0) j (t.shape_.getD j 0))) := by
  unfold Tensor.index_from_indices
  rw [if_neg (by simpa using hlen)]
  have := index_loop_error t.shape_ t.strides_ idx 0 0 j hj
    (fun k hk => by simpa using hbefore k hk) (by simpa using hbad)
  simpa using this

theorem index_from_indices_bad (t : Tensor F) (idx : List Int)
    (h : BadIndex t.shape_ idx) :
    ∃ m, t.index_from_indices idx = .error (.out_of_range m) := by
  by_cases hlen : idx.length = t.shape_.length
  · have hex : ∃ i, i < idx.length ∧
        (idx.getD i 0 < 0 ∨ idx.getD i 0 ≥ t.shape_.getD i 0) := by
      rcases h with h | h
      · exact absurd hlen h
      · exact h
    classical
    have hj := Nat.find_spec hex
    refine ⟨_, index_from_indices_bounds t idx hlen (Nat.find hex) hj.1 ?_ hj.2⟩
    intro k hk
    have hmin := Nat.find_min hex hk
    have hk2 : k < idx.length := Nat.lt_trans hk hj.1
    rw [not_and] at hmin
    have := hmin hk2
    omega
  · exact ⟨_, index_from_indices_dims t idx hlen⟩

theorem index_from_indices_error_iff (t : Tensor F) (idx : List Int) :
    (∃ m, t.index_from_indices idx = .error (.out_of_range m)) ↔ BadIndex t.shape_ idx := by
  constructor
  · rintro ⟨m, hm⟩
    rw [badIndex_iff_not_valid]
    intro hv
    rw [index_from_indices_valid t idx hv] at hm
    cases hm
  · exact index_from_indices_bad t idx

theorem index_from_indices_error_kind (t : Tensor F) (idx : List Int) (f : Fault)
    (h : t.index_from_indices idx = .error f) : ∃ m, f = .out_of_range m := by
  by_cases hv : ValidIndex t.shape_ idx
  · rw [index_from_indices_valid t idx hv] at h
    cases h
  · obtain ⟨m, hm⟩ := index_from_indices_bad t idx ((badIndex_iff_not_valid _ _).mpr hv)
    rw [hm] at h
    injection h with h
    exact ⟨m, h.symm⟩

/-- With no wraparound in the product of the shape, the strides are the exact
products of the later shape entries. -/
theorem strides_exact {t : Tensor F} (h : WF t) (hfit : natProd t.shape_ < SIZE_T_MOD)
    (j : Nat) (hj : j < t.shape_.length) :
    t.strides_.getD j 0 = natProd (t.shape_.drop (j + 1)) := by
  rw [h.strides_val j hj]
  exact Nat.mod_eq_of_lt (Nat.lt_of_le_of_lt (natProd_drop_le h.pos _) hfit)

theorem size_exact {t : Tensor F} (h : WF t) (hfit : natProd t.shape_ < SIZE_T_MOD) :
    t.size = natProd t.shape_ := by
  rw [size_eq_mod t (fun s hs => (h.pos s hs).le)]
  exact Nat.mod_eq_of_lt hfit

theorem dotFrom_exact {t : Tensor F} (h : WF t) (hfit : natProd t.shape_ < SIZE_T_MOD)
    (idx : List Int) (hv : ValidIndex t.shape_ idx) :
    dotFrom t.strides_ idx 0 = flat t.shape_ idx := by
  have := dotFrom_eq_flat t.shape_ t.strides_ idx 0 (by simpa using hv.1)
    (fun j hj => strides_exact h hfit j hj)
  simpa using this

/-- With no wraparound in the product of the shape, a valid index is mapped to
its row-major position, which lies inside the buffer. -/
theorem index_from_indices_exact {t : Tensor F} (h : WF t)
    (hfit : natProd t.shape_ < SIZE_T_MOD) (idx : List Int)
    (hv : ValidIndex t.shape_ idx) :
    t.index_from_indices idx = .ok (flat t.shape_ idx) ∧
      flat t.shape_ idx < t.data_.length := by
  have hlt := flat_lt t.shape_ idx hv
  rw [index_from_indices_valid t idx hv, dotFrom_exact h hfit idx hv,
    Nat.mod_eq_of_lt (Nat.lt_trans hlt hfit), h.data_len, size_exact h hfit]
  exact ⟨rfl, hlt⟩

theorem get_of_index_ok (t : Tensor F) (idx : List Int) (off : Nat)
    (h : t.index_from_indices idx = .ok off) (hoff : off < t.data_.length) :
    t.get idx = .ok (t.data_[off]) := by
  unfold Tensor.get
  rw [h]
  simp only [List.get?_eq_getElem?, List.getElem?_eq_getElem hoff]

theorem set_of_index_ok (t : Tensor F) (idx : List Int) (v : F) (off : Nat)
    (h : t.index_from_indices idx = .ok off) (hoff : off < t.data_.length) :
    t.set idx v = (.ok (), { t with data_ := t.data_.set off v }) := by
  unfold Tensor.set
  rw [h]
  simp [hoff]

theorem get_of_index_error (t : Tensor F) (idx : List Int) (f : Fault)
    (h : t.index_from_indices idx = .error f) : t.get idx = .error f := by
  unfold Tensor.get
  rw [h]

theorem set_of_index_error (t : Tensor F) (idx : List Int) (v : F) (f : Fault)
    (h : t.index_from_indices idx = .error f) : t.set idx v = (.error f, t) := by
  unfold Tensor.set
  rw [h]

theorem natProd_lt_of_prod {shape : List Int} (hpos : ∀ s ∈ shape, 0 < s)
    (hfit : shape.prod < 2 ^ 64) : natProd shape < SIZE_T_MOD := by
  have h := natProd_cast hpos
  have : (natProd shape : Int) < 2 ^ 64 := by rw [h]; exact hfit
  unfold SIZE_T_MOD
  exact_mod_cast this

/-! Claims C1 to C5 -/

theorem size_foldl_cast {shape : List Int} (hpos : ∀ s ∈ shape, 0 < s) :
    ((shape.foldl (fun n s => (n * to_size_t s) % SIZE_T_MOD) 1 : Nat) : Int)
      = shape.prod % 2 ^ 64 := by
  have h := size_eq_mod (⟨shape, [], []⟩ : Tensor Unit) (fun s hs => (hpos s hs).le)
  have h2 : (⟨shape, [], []⟩ : Tensor Unit).size
      = shape.foldl (fun n s => (n * to_size_t s) % SIZE_T_MOD) 1 := rfl
  rw [← h2, h, ← natProd_cast hpos]
  simp [SIZE_T_MOD]

/-- C1 (as amended): for every non-empty shape with all entries positive for which
`data_.assign` can allocate the buffer (the product of the entries modulo `2 ^ 64` is
at most `max_size()` and at most the number of elements the allocator provides), the
constructor returns a tensor whose `size()` is the product of the entries modulo
`2 ^ 64` and whose data buffer is `size()` zeros; when the product of the entries
is below `2 ^ 64`, `size()` is that product and `get` returns 0 at every valid
index. -/
theorem C1_fresh_tensor [Zero F] (a : Allocator) (shape : List Int) (hne : shape ≠ [])
    (hpos : ∀ s ∈ shape, 0 < s)
    (hmax : shape.prod % 2 ^ 64 ≤ (a.max_size : Int))
    (hav : shape.prod % 2 ^ 64 ≤ (a.available : Int)) :
    ∃ t : Tensor F, Tensor.new a shape = .ok t ∧
      (t.size : Int) = shape.prod % 2 ^ 64 ∧
      t.data_ = List.replicate t.size 0 ∧
      (shape.prod < 2 ^ 64 →
        (t.size : Int) = shape.prod ∧ ∀ idx, ValidIndex shape idx → t.get idx = .ok 0) := by
  rw [← size_foldl_cast hpos] at hmax hav
  obtain ⟨t, ht⟩ : ∃ t : Tensor F, Tensor.new a shape = .ok t :=
    ⟨_, new_of_valid a shape hne hpos (by exact_mod_cast hmax) (by exact_mod_cast hav)⟩
  obtain ⟨_, _, hteq, _, _⟩ := new_ok_inv ht
  have hshape : t.shape_ = shape := by rw [hteq]
  have hdata : t.data_ = List.replicate t.size 0 := by rw [hteq]; rfl
  have hwf := new_wf ht
  have hsize : (t.size : Int) = shape.prod % 2 ^ 64 := by
    rw [size_eq_mod t (fun s hs => (hwf.pos s hs).le), hshape, ← natProd_cast hpos]
    simp [SIZE_T_MOD]
  refine ⟨t, ht, hsize, hdata, fun hfit => ?_⟩
  have hfit2 : natProd t.shape_ < SIZE_T_MOD := by
    rw [hshape]; exact natProd_lt_of_prod hpos hfit
  refine ⟨?_, fun idx hv => ?_⟩
  · rw [size_exact hwf hfit2, hshape, natProd_cast hpos]
  · obtain ⟨hoff, hlt⟩ := index_from_indices_exact hwf hfit2 idx (hshape ▸ hv)
    rw [get_of_index_ok t idx _ hoff hlt]
    congr 1
    simp only [hdata, List.getElem_replicate]

/-- C1, witness: shape `{2, 3}`, whose product 6 is below `2 ^ 64`, with an allocator
that provides 6 elements. -/
theorem C1_fresh_tensor_witness :
    (([2, 3] : List Int) ≠ [] ∧ (∀ s ∈ ([2, 3] : List Int), 0 < s) ∧
      ([2, 3] : List Int).prod % 2 ^ 64 ≤ (sample_allocator.max_size : Int) ∧
      ([2, 3] : List Int).prod % 2 ^ 64 ≤ (sample_allocator.available : Int) ∧
      ([2, 3] : List Int).prod < 2 ^ 64) ∧
    ∃ t : Tensor Int, Tensor.new sample_allocator [2, 3] = .ok t ∧
      (t.size : Int) = ([2, 3] : List Int).prod ∧
      ∀ idx, ValidIndex [2, 3] idx → t.get idx = .ok 0 := by
  obtain ⟨t, h1, _, _, h4⟩ := C1_fresh_tensor (F := Int) sample_allocator [2, 3]
    (by decide) (by decide) (by decide) (by decide)
  exact ⟨⟨by decide, by decide, by decide, by decide, by decide⟩, t, h1, h4 (by decide)⟩

theorem new_too_large [Zero F] (a : Allocator) :
    (Tensor.new a [2147483647, 2147483647, 2] : Except Fault (Tensor F))
      = .error .length_error := by
  apply new_length_error a _ (by decide) (by decide)
  have h : List.foldl (fun n s => (n * to_size_t s) % SIZE_T_MOD) 1
      ([2147483647, 2147483647, 2] : List Int) = 9223372028264841218 := by decide
  have hb := a.max_size_bound
  rw [h]
  omega

/-- C1 as stated fails, in two ways.  The shape `{65536, 65536, 65536, 65536}` is
non-empty with positive entries and the constructor returns a tensor, but its
`size()` is 0, not the product `2 ^ 64`, and `get` at the valid index `{0, 0, 0, 0}`
does not return 0.  The shape `{2147483647, 2147483647, 2}` is non-empty with positive
entries and a product below `2 ^ 64`, and with every allocator the constructor throws
`std::length_error` instead of returning a tensor. -/
theorem C1_counterexample :
    (([65536, 65536, 65536, 65536] : List Int) ≠ [] ∧
      (∀ s ∈ ([65536, 65536, 65536, 65536] : List Int), 0 < s) ∧
      ∃ t : Tensor Int, Tensor.new sample_allocator [65536, 65536, 65536, 65536] = .ok t ∧
        (t.size : Int) ≠ ([65536, 65536, 65536, 65536] : List Int).prod ∧
        ValidIndex [65536, 65536, 65536, 65536] [0, 0, 0, 0] ∧
        t.get [0, 0, 0, 0] ≠ .ok 0) ∧
    (([2147483647, 2147483647, 2] : List Int) ≠ [] ∧
      (∀ s ∈ ([2147483647, 2147483647, 2] : List Int), 0 < s) ∧
      ([2147483647, 2147483647, 2] : List Int).prod < 2 ^ 64 ∧
      ∀ a : Allocator, (Tensor.new a [2147483647, 2147483647, 2] : Except Fault (Tensor Int))
        = .error .length_error) :=
  ⟨⟨by decide, by decide,
    ⟨[65536, 65536, 65536, 65536], [281474976710656, 4294967296, 65536, 1], []⟩,
    by decide, by decide, by decide, by decide⟩,
   ⟨by decide, by decide, by decide, fun a => new_too_large a⟩⟩

theorem dotFrom_cast (strides : List Nat) (shape idx : List Int)
    (hv : ValidIndex shape idx) :
    (dotFrom strides idx 0 : Int)
      = ∑ i in Finset.range idx.length, idx.getD i 0 * (strides.getD i 0 : Int) := by
  rw [dotFrom_eq_sum, Nat.cast_sum]
  apply Finset.sum_congr rfl
  intro i hi
  have hi2 : i < shape.length := by rw [← hv.1]; exact Finset.mem_range.mp hi
  rw [Nat.cast_mul, Int.toNat_of_nonneg (hv.2 i hi2).1, Nat.zero_add]

/-- C2 (as amended): for every tensor of the constructor and every valid index,
`index_from_indices` returns the sum over the axes of `idx[i] * strides[i]`
modulo `2 ^ 64`; when the product of the shape entries is below `2 ^ 64` it is
exactly that sum. -/
theorem C2_offset_is_weighted_sum [Zero F] (t : Tensor F) (idx : List Int)
    (ht : Produced t) (hv : ValidIndex t.shape_ idx) :
    ∃ off, t.index_from_indices idx = .ok off ∧
      (off : Int) = (∑ i in Finset.range idx.length,
        idx.getD i 0 * (t.strides_.getD i 0 : Int)) % 2 ^ 64 ∧
      (t.shape_.prod < 2 ^ 64 →
        (off : Int) = ∑ i in Finset.range idx.length,
          idx.getD i 0 * (t.strides_.getD i 0 : Int)) := by
  have hwf := produced_wf ht
  refine ⟨_, index_from_indices_valid t idx hv, ?_, fun hfit => ?_⟩
  · rw [← dotFrom_cast t.strides_ t.shape_ idx hv]
    simp [SIZE_T_MOD]
  · have hfit2 := natProd_lt_of_prod hwf.pos hfit
    rw [← dotFrom_cast t.strides_ t.shape_ idx hv, dotFrom_exact hwf hfit2 idx hv,
      Nat.mod_eq_of_lt (Nat.lt_trans (flat_lt t.shape_ idx hv) hfit2)]

/-- C2, witness: the tensor of shape `{2, 3}` and the index `{1, 2}`. -/
theorem C2_offset_is_weighted_sum_witness :
    (Produced (⟨[2, 3], [3, 1], [0, 0, 0, 0, 0, 0]⟩ : Tensor Int) ∧
      ValidIndex [2, 3] [1, 2] ∧ ([2, 3] : List Int).prod < 2 ^ 64) ∧
    ∃ off, (⟨[2, 3], [3, 1], [0, 0, 0, 0, 0, 0]⟩ : Tensor Int).index_from_indices [1, 2]
        = .ok off ∧
      (off : Int) = ∑ i in Finset.range 2,
        ([1, 2] : List Int).getD i 0 * ((([3, 1] : List Nat).getD i 0 : Nat) : Int) := by
  have hp : Produced (⟨[2, 3], [3, 1], [0, 0, 0, 0, 0, 0]⟩ : Tensor Int) :=
    Produced.new sample_allocator [2, 3] _ (by decide)
  obtain ⟨off, h1, _, h3⟩ := C2_offset_is_weighted_sum
    (⟨[2, 3], [3, 1], [0, 0, 0, 0, 0, 0]⟩ : Tensor Int) [1, 2] hp (by decide)
  exact ⟨⟨hp, by decide, by decide⟩, off, h1, h3 (by decide)⟩

/-- C2 as stated fails: in the tensor of shape `{4, 65536, 65536, 65536, 32768}`
the stride of axis 0 is `2 ^ 63`; at the valid index `{2, 0, 0, 0, 0}` the sum of
`idx[i] * strides[i]` is `2 ^ 64`, and `index_from_indices` returns 0. -/
theorem C2_counterexample :
    ∃ t : Tensor Int, Tensor.new sample_allocator [4, 65536, 65536, 65536, 32768] = .ok t ∧
      ValidIndex t.shape_ [2, 0, 0, 0, 0] ∧
      t.index_from_indices [2, 0, 0, 0, 0] = .ok 0 ∧
      (∑ i in Finset.range 5,
        ([2, 0, 0, 0, 0] : List Int).getD i 0 * (t.strides_.getD i 0 : Int)) = 2 ^ 64 :=
  ⟨⟨[4, 65536, 65536, 65536, 32768],
      [9223372036854775808, 140737488355328, 2147483648, 32768, 1], []⟩,
    by decide, by decide, by decide, by simp [Finset.sum_range_succ]⟩

theorem drop_pos {l : List Int} (h : ∀ s ∈ l, 0 < s) (k : Nat) :
    ∀ s ∈ l.drop k, 0 < s :=
  fun s hs => h s (List.mem_of_mem_drop hs)

/-- C3 (as amended): for every tensor of the constructor, `strides` has the length
of `shape`, `strides[last] = 1`, and for every axis `i`, `strides[i]` is the
product of `shape[i+1], ..., shape[last]` modulo `2 ^ 64`, hence that product itself
when it is below `2 ^ 64`. -/
theorem C3_strides_are_suffix_products [Zero F] (t : Tensor F) (ht : Produced t) :
    t.strides_.length = t.shape_.length ∧
    t.strides_.getD (t.shape_.length - 1) 0 = 1 ∧
    ∀ i, i < t.shape_.length →
      (t.strides_.getD i 0 : Int) = (t.shape_.drop (i + 1)).prod % 2 ^ 64 ∧
      ((t.shape_.drop (i + 1)).prod < 2 ^ 64 →
        (t.strides_.getD i 0 : Int) = (t.shape_.drop (i + 1)).prod) := by
  have hwf := produced_wf ht
  have hlen : 0 < t.shape_.length := List.length_pos.mpr hwf.ne
  have hmod : ∀ i, i < t.shape_.length →
      (t.strides_.getD i 0 : Int) = (t.shape_.drop (i + 1)).prod % 2 ^ 64 := by
    intro i hi
    rw [hwf.strides_val i hi, ← natProd_cast (drop_pos hwf.pos (i + 1))]
    simp [SIZE_T_MOD]
  refine ⟨hwf.strides_len, ?_, fun i hi => ⟨hmod i hi, fun hfit => ?_⟩⟩
  · rw [hwf.strides_val _ (by omega)]
    have : t.shape_.length - 1 + 1 = t.shape_.length := by omega
    rw [this, List.drop_length]
    decide
  · rw [hmod i hi]
    exact Int.emod_eq_of_lt
      (by rw [← natProd_cast (drop_pos hwf.pos (i + 1))]; exact Int.natCast_nonneg _) hfit

/-- C3, witness: the tensor of shape `{2, 3, 4}` has strides `{12, 4, 1}`. -/
theorem C3_strides_are_suffix_products_witness :
    Produced (⟨[2, 3, 4], [12, 4, 1], List.replicate 24 0⟩ : Tensor Int) ∧
    (([2, 3, 4] : List Int).drop (0 + 1)).prod < 2 ^ 64 ∧
    (([12, 4, 1] : List Nat).getD 0 0 : Int) = (([2, 3, 4] : List Int).drop (0 + 1)).prod := by
  have hp : Produced (⟨[2, 3, 4], [12, 4, 1], List.replicate 24 0⟩ : Tensor Int) :=
    Produced.new sample_allocator [2, 3, 4] _ (by decide)
  have h := C3_strides_are_suffix_products _ hp
  exact ⟨hp, by decide, (h.2.2 0 (by decide)).2 (by decide)⟩

/-- C3 as stated fails: in the tensor of shape `{2, 65536, 65536, 65536, 65536}`
the stride of axis 0 is 0, while the product of the later shape entries is
`2 ^ 64`. -/
theorem C3_counterexample :
    ∃ t : Tensor Int, Tensor.new sample_allocator [2, 65536, 65536, 65536, 65536] = .ok t ∧
      (t.strides_.getD 0 0 : Int) ≠ (t.shape_.drop (0 + 1)).prod :=
  ⟨⟨[2, 65536, 65536, 65536, 65536], [0, 281474976710656, 4294967296, 65536, 1], []⟩,
    by decide, by decide⟩

/-- C4 (as amended): for every tensor of the constructor whose shape has a product
below `2 ^ 64`, the index mapping restricted to valid indices is a bijection onto
`[0, size())`: every valid index has an offset below `size()`, two valid indices
with the same offset are equal, and every `k < size()` is the offset of a valid
index. -/
theorem C4_index_bijection [Zero F] (t : Tensor F) (ht : Produced t)
    (hfit : t.shape_.prod < 2 ^ 64) :
    (∀ idx, ValidIndex t.shape_ idx →
      ∃ off, t.index_from_indices idx = .ok off ∧ off < t.size) ∧
    (∀ idx jdx, ValidIndex t.shape_ idx → ValidIndex t.shape_ jdx →
      t.index_from_indices idx = t.index_from_indices jdx → idx = jdx) ∧
    (∀ k, k < t.size → ∃ idx, ValidIndex t.shape_ idx ∧ t.index_from_indices idx = .ok k) := by
  have hwf := produced_wf ht
  have hfit2 := natProd_lt_of_prod hwf.pos hfit
  have hsize := size_exact hwf hfit2
  refine ⟨fun idx hv => ?_, fun idx jdx hi hj heq => ?_, fun k hk => ?_⟩
  · exact ⟨_, (index_from_indices_exact hwf hfit2 idx hv).1,
      by rw [hsize]; exact flat_lt _ _ hv⟩
  · rw [(index_from_indices_exact hwf hfit2 idx hi).1,
      (index_from_indices_exact hwf hfit2 jdx hj).1] at heq
    injection heq with heq
    exact flat_inj t.shape_ idx jdx hi hj heq
  · obtain ⟨idx, hv, hf⟩ := flat_surj t.shape_ hwf.pos k (by rw [← hsize]; exact hk)
    exact ⟨idx, hv, by rw [(index_from_indices_exact hwf hfit2 idx hv).1, hf]⟩

/-- C4, witness: the tensor of shape `{2, 3}`. -/
theorem C4_index_bijection_witness :
    (Produced (⟨[2, 3], [3, 1], [0, 0, 0, 0, 0, 0]⟩ : Tensor Int) ∧
      ([2, 3] : List Int).prod < 2 ^ 64) ∧
    ∀ k, k < (⟨[2, 3], [3, 1], [0, 0, 0, 0, 0, 0]⟩ : Tensor Int).size →
      ∃ idx, ValidIndex [2, 3] idx ∧
        (⟨[2, 3], [3, 1], [0, 0, 0, 0, 0, 0]⟩ : Tensor Int).index_from_indices idx = .ok k := by
  have hp : Produced (⟨[2, 3], [3, 1], [0, 0, 0, 0, 0, 0]⟩ : Tensor Int) :=
    Produced.new sample_allocator [2, 3] _ (by decide)
  exact ⟨⟨hp, by decide⟩, (C4_index_bijection _ hp (by decide)).2.2⟩

/-- C4 as stated fails: the constructor accepts the shape
`{2, 2147418113, 429509837, 20}`, whose product is `2 * (2 ^ 64 + 4)`; `size()` is 8
and the stride of axis 0 is 4.  The distinct valid indices `{1, 0, 0, 0}` and
`{0, 0, 0, 4}` both have offset 4, and the valid index `{0, 0, 1, 0}` has offset 20,
which is not below `size()`. -/
theorem C4_counterexample :
    ∃ t : Tensor Int, Tensor.new sample_allocator [2, 2147418113, 429509837, 20] = .ok t ∧
      t.size = 8 ∧
      ValidIndex t.shape_ [1, 0, 0, 0] ∧ ValidIndex t.shape_ [0, 0, 0, 4] ∧
      t.index_from_indices [1, 0, 0, 0] = .ok 4 ∧
      t.index_from_indices [0, 0, 0, 4] = .ok 4 ∧
      ([1, 0, 0, 0] : List Int) ≠ [0, 0, 0, 4] ∧
      ValidIndex t.shape_ [0, 0, 1, 0] ∧
      t.index_from_indices [0, 0, 1, 0] = .ok 20 :=
  ⟨⟨[2, 2147418113, 429509837, 20], [4, 8590196740, 20, 1], [0, 0, 0, 0, 0, 0, 0, 0]⟩,
    by decide, by decide, by decide, by decide, by decide, by decide, by decide, by decide,
    by decide⟩

/-- C5, at the failing input: the constructor accepts the shape
`{2, 2147418113, 429509837, 20}`, whose product is `2 * (2 ^ 64 + 4)`; `size()` wraps
around to 8, so the data buffer has 8 elements; `index_from_indices` accepts the
index `{0, 0, 1, 0}` and returns 20, which is not below the length of the buffer:
`get` reads and `set` writes `data_[20]` outside the buffer.  The offset 4 of the
index `{1, 0, 0, 0}` is produced by wraparound of the stride of axis 0. -/
theorem C5_access_outside_buffer :
    ∃ t : Tensor Int, Tensor.new sample_allocator [2, 2147418113, 429509837, 20] = .ok t ∧
      t.size = 8 ∧ t.data_.length = 8 ∧
      ValidIndex t.shape_ [0, 0, 1, 0] ∧
      t.index_from_indices [0, 0, 1, 0] = .ok 20 ∧
      t.get [0, 0, 1, 0] = .error (.outside_buffer 20 8) ∧
      (t.set [0, 0, 1, 0] 1).1 = .error (.outside_buffer 20 8) ∧
      t.strides_ = [4, 8590196740, 20, 1] ∧
      t.index_from_indices [1, 0, 0, 0] = .ok 4 :=
  ⟨⟨[2, 2147418113, 429509837, 20], [4, 8590196740, 20, 1], [0, 0, 0, 0, 0, 0, 0, 0]⟩,
    by decide, by decide, by decide, by decide, by decide, by decide, by decide, by decide,
    by decide⟩

/-! Claims C6 to C10 -/

theorem index_from_indices_congr (t u : Tensor F) (h1 : u.shape_ = t.shape_)
    (h2 : u.strides_ = t.strides_) (idx : List Int) :
    u.index_from_indices idx = t.index_from_indices idx := by
  unfold Tensor.index_from_indices
  rw [h1, h2]

/-- Whenever `set(idx, v)` returns, `get(idx)` on the tensor after it returns exactly
`v`: for every tensor, whatever its shape. -/
theorem get_after_set (t : Tensor F) (idx : List Int) (v : F)
    (hs : (t.set idx v).1 = .ok ()) : (t.set idx v).2.get idx = .ok v := by
  cases hidx : t.index_from_indices idx with
  | error f =>
    rw [set_of_index_error t idx v f hidx] at hs
    cases hs
  | ok off =>
    have hlt : off < t.data_.length := by
      by_contra hlt
      unfold Tensor.set at hs
      rw [hidx] at hs
      simp [hlt] at hs
    have hset := set_of_index_ok t idx v off hidx hlt
    have hidx2 : (t.set idx v).2.index_from_indices idx = .ok off := by
      rw [index_from_indices_congr t _ (set_shape t idx v) (set_strides t idx v), hidx]
    have hlt2 : off < (t.set idx v).2.data_.length := by
      rw [set_data_length]; exact hlt
    rw [get_of_index_ok _ idx _ hidx2 hlt2]
    congr 1
    simp only [hset, List.getElem_set_self]

/-- For a tensor of the constructor whose shape has a product below `2 ^ 64`, `set`
at a valid index returns. -/
theorem set_returns_of_fit [Zero F] (t : Tensor F) (idx : List Int) (v : F)
    (ht : Produced t) (hv : ValidIndex t.shape_ idx) (hfit : t.shape_.prod < 2 ^ 64) :
    (t.set idx v).1 = .ok () := by
  have hwf := produced_wf ht
  have hfit2 := natProd_lt_of_prod hwf.pos hfit
  obtain ⟨hoff, hlt⟩ := index_from_indices_exact hwf hfit2 idx hv
  rw [set_of_index_ok t idx v _ hoff hlt]

/-- C6, at the failing input: the constructor accepts the shape
`{32768, 65536, 65536, 65536, 2}`, whose product is `2 ^ 64`; `size()` wraps around
to 0 and the buffer is empty.  At the valid index `{0, 0, 0, 0, 1}`,
`index_from_indices` returns 1 and `set` writes `data_[1]` outside the buffer, where
the claim has `set` store the value for `get` to return; `get` reads outside the
buffer too. -/
theorem C6_set_outside_buffer :
    ∃ t : Tensor Int, Tensor.new sample_allocator [32768, 65536, 65536, 65536, 2] = .ok t ∧
      t.size = 0 ∧ t.data_ = [] ∧
      ValidIndex t.shape_ [0, 0, 0, 0, 1] ∧
      t.index_from_indices [0, 0, 0, 0, 1] = .ok 1 ∧
      (t.set [0, 0, 0, 0, 1] 7).1 = .error (.outside_buffer 1 0) ∧
      t.get [0, 0, 0, 0, 1] = .error (.outside_buffer 1 0) ∧
      (t.set [0, 0, 0, 0, 1] 7).2.get [0, 0, 0, 0, 1] ≠ .ok 7 :=
  ⟨⟨[32768, 65536, 65536, 65536, 2], [562949953421312, 8589934592, 131072, 2, 1], []⟩,
    by decide, by decide, by decide, by decide, by decide, by decide, by decide, by decide⟩

theorem get_ok_or_outside (t : Tensor F) (idx : List Int) (off : Nat)
    (h : t.index_from_indices idx = .ok off) :
    (∃ x, t.get idx = .ok x) ∨ t.get idx = .error (.outside_buffer off t.data_.length) := by
  unfold Tensor.get
  rw [h]
  cases hd : t.data_.get? off with
  | none => right; simp only [hd]
  | some x => left; exact ⟨x, by simp only [hd]⟩

theorem set_ok_or_outside (t : Tensor F) (idx : List Int) (v : F) (off : Nat)
    (h : t.index_from_indices idx = .ok off) :
    (t.set idx v).1 = .ok () ∨
      (t.set idx v).1 = .error (.outside_buffer off t.data_.length) := by
  unfold Tensor.set
  rw [h]
  by_cases hoff : off < t.data_.length
  · left; simp [hoff]
  · right; simp [hoff]

/-- C7 (as amended): for every tensor of the constructor, every valid index and every
value `v`: whenever `set(idx, v)` returns, it leaves `shape`, `strides` and the length
of the data buffer unchanged, writes `v` at the one flat offset
`index_from_indices(idx)` of the data buffer and changes no other element; and when
the product of the shape entries is below `2 ^ 64`, `set(idx, v)` returns and
`get(jdx)` returns the same as before for every valid index `jdx` other than
`idx`. -/
theorem C7_set_frame [Zero F] (t : Tensor F) (idx : List Int) (v : F)
    (ht : Produced t) (hv : ValidIndex t.shape_ idx) :
    ((t.set idx v).1 = .ok () →
      (t.set idx v).2.shape_ = t.shape_ ∧
      (t.set idx v).2.strides_ = t.strides_ ∧
      (t.set idx v).2.data_.length = t.data_.length ∧
      ∃ off, t.index_from_indices idx = .ok off ∧ off < t.data_.length ∧
        (t.set idx v).2.data_[off]? = some v ∧
        ∀ k, k ≠ off → (t.set idx v).2.data_[k]? = t.data_[k]?) ∧
    (t.shape_.prod < 2 ^ 64 →
      (t.set idx v).1 = .ok () ∧
      ∀ jdx, ValidIndex t.shape_ jdx → jdx ≠ idx →
        (t.set idx v).2.get jdx = t.get jdx) := by
  have hwf := produced_wf ht
  refine ⟨fun hret => ?_, fun hfit => ?_⟩
  · have hoff := index_from_indices_valid t idx hv
    have hlt : dotFrom t.strides_ idx 0 % SIZE_T_MOD < t.data_.length := by
      by_contra hlt
      unfold Tensor.set at hret
      rw [hoff] at hret
      simp [hlt] at hret
    have hset := set_of_index_ok t idx v _ hoff hlt
    refine ⟨set_shape t idx v, set_strides t idx v, set_data_length t idx v,
      _, hoff, hlt, ?_, fun k hk => ?_⟩
    · rw [hset]
      simp [List.getElem?_set_self hlt]
    · rw [hset]
      simp [List.getElem?_set_ne (Ne.symm hk)]
  · have hfit2 := natProd_lt_of_prod hwf.pos hfit
    obtain ⟨hoff, hlt⟩ := index_from_indices_exact hwf hfit2 idx hv
    have hset := set_of_index_ok t idx v _ hoff hlt
    refine ⟨by rw [hset], fun jdx hj hne => ?_⟩
    obtain ⟨hoffj, hltj⟩ := index_from_indices_exact hwf hfit2 jdx hj
    have hidx : (t.set idx v).2.index_from_indices jdx = .ok (flat t.shape_ jdx) := by
      rw [index_from_indices_congr t _ (set_shape t idx v) (set_strides t idx v), hoffj]
    have hlt2 : flat t.shape_ jdx < (t.set idx v).2.data_.length := by
      rw [set_data_length]; exact hltj
    have hdiff : flat t.shape_ idx ≠ flat t.shape_ jdx :=
      fun h => hne (flat_inj t.shape_ jdx idx hj hv h.symm)
    rw [get_of_index_ok _ jdx _ hidx hlt2, get_of_index_ok t jdx _ hoffj hltj]
    congr 1
    simp only [hset, List.getElem_set_ne hdiff]

/-- C7, witness: the tensor of shape `{2, 3}` holding 1..6, index `{1, 1}`, value 9:
`set` returns, writes offset 4 only, and every other valid index reads as before. -/
theorem C7_set_frame_witness :
    (Produced (⟨[2, 3], [3, 1], [1, 2, 3, 4, 5, 6]⟩ : Tensor Int) ∧
      ValidIndex [2, 3] [1, 1] ∧
      ((⟨[2, 3], [3, 1], [1, 2, 3, 4, 5, 6]⟩ : Tensor Int).set [1, 1] 9).1 = .ok () ∧
      ([2, 3] : List Int).prod < 2 ^ 64) ∧
    (((⟨[2, 3], [3, 1], [1, 2, 3, 4, 5, 6]⟩ : Tensor Int).set [1, 1] 9).2.shape_ = [2, 3] ∧
      ((⟨[2, 3], [3, 1], [1, 2, 3, 4, 5, 6]⟩ : Tensor Int).set [1, 1] 9).2.strides_ = [3, 1] ∧
      ((⟨[2, 3], [3, 1], [1, 2, 3, 4, 5, 6]⟩ : Tensor Int).set [1, 1] 9).2.data_.length = 6 ∧
      ∃ off, (⟨[2, 3], [3, 1], [1, 2, 3, 4, 5, 6]⟩ : Tensor Int).index_from_indices [1, 1]
          = .ok off ∧ off < 6 ∧
        ((⟨[2, 3], [3, 1], [1, 2, 3, 4, 5, 6]⟩ : Tensor Int).set [1, 1] 9).2.data_[off]?
          = some 9 ∧
        ∀ k, k ≠ off →
          ((⟨[2, 3], [3, 1], [1, 2, 3, 4, 5, 6]⟩ : Tensor Int).set [1, 1] 9).2.data_[k]?
            = ([1, 2, 3, 4, 5, 6] : List Int)[k]?) ∧
    (∀ jdx, ValidIndex [2, 3] jdx → jdx ≠ [1, 1] →
      ((⟨[2, 3], [3, 1], [1, 2, 3, 4, 5, 6]⟩ : Tensor Int).set [1, 1] 9).2.get jdx
        = (⟨[2, 3], [3, 1], [1, 2, 3, 4, 5, 6]⟩ : Tensor Int).get jdx) ∧
    ((⟨[2, 3], [3, 1], [1, 2, 3, 4, 5, 6]⟩ : Tensor Int).set [1, 1] 9).2.data_
      = [1, 2, 3, 4, 9, 6] := by
  have h := C7_set_frame _ [1, 1] 9 produced_filled_2_3 (by decide)
  exact ⟨⟨produced_filled_2_3, by decide, by decide, by decide⟩, h.1 (by decide),
    (h.2 (by decide)).2, by decide⟩

/-- C7 as stated fails: in the tensor of shape `{2, 2147418113, 429509837, 20}`
(8 elements, all 0), `set({1, 0, 0, 0}, 7)` returns and writes offset 4, and
afterwards `get` at the other valid index `{0, 0, 0, 4}` returns 7 instead of 0. -/
theorem C7_counterexample :
    ∃ t : Tensor Int, Tensor.new sample_allocator [2, 2147418113, 429509837, 20] = .ok t ∧
      ValidIndex t.shape_ [1, 0, 0, 0] ∧ ValidIndex t.shape_ [0, 0, 0, 4] ∧
      ([0, 0, 0, 4] : List Int) ≠ [1, 0, 0, 0] ∧
      (t.set [1, 0, 0, 0] 7).1 = .ok () ∧
      t.get [0, 0, 0, 4] = .ok 0 ∧
      (t.set [1, 0, 0, 0] 7).2.get [0, 0, 0, 4] = .ok 7 :=
  ⟨⟨[2, 2147418113, 429509837, 20], [4, 8590196740, 20, 1], [0, 0, 0, 0, 0, 0, 0, 0]⟩,
    by decide, by decide, by decide, by decide, by decide, by decide, by decide⟩

/-- C8 (as amended): the constructor throws `std::invalid_argument` if and only if the
shape is empty or has an entry `<= 0`; for every other shape it returns a tensor if
and only if `data_.assign` can allocate the buffer, that is when `size()` (the product
of the entries modulo `2 ^ 64`) is at most `max_size()` and at most the number of
elements the allocator provides, and otherwise it throws `std::length_error` (above
`max_size()`) or `std::bad_alloc`; a call that throws produces no tensor. -/
theorem C8_constructor_failure [Zero F] (a : Allocator) (shape : List Int) :
    ((∃ m, (Tensor.new a shape : Except Fault (Tensor F)) = .error (.invalid_argument m)) ↔
      (shape = [] ∨ ∃ s ∈ shape, s ≤ 0)) ∧
    ((∃ t : Tensor F, Tensor.new a shape = .ok t) ↔
      (¬ (shape = [] ∨ ∃ s ∈ shape, s ≤ 0) ∧
        shape.prod % 2 ^ 64 ≤ (a.max_size : Int) ∧
        shape.prod % 2 ^ 64 ≤ (a.available : Int))) ∧
    (¬ (shape = [] ∨ ∃ s ∈ shape, s ≤ 0) → (a.max_size : Int) < shape.prod % 2 ^ 64 →
      (Tensor.new a shape : Except Fault (Tensor F)) = .error .length_error) ∧
    (¬ (shape = [] ∨ ∃ s ∈ shape, s ≤ 0) → shape.prod % 2 ^ 64 ≤ (a.max_size : Int) →
      (a.available : Int) < shape.prod % 2 ^ 64 →
      (Tensor.new a shape : Except Fault (Tensor F)) = .error .bad_alloc) := by
  by_cases hne : shape = []
  · subst hne
    simp [new_empty]
  · by_cases hpos : ∀ s ∈ shape, 0 < s
    · have hgood : ¬ (shape = [] ∨ ∃ s ∈ shape, s ≤ 0) := by
        rintro (h | ⟨s, hs, hle⟩)
        · exact hne h
        · have := hpos s hs; omega
      have hcast := size_foldl_cast hpos
      by_cases hmax : a.max_size < shape.foldl (fun n s => (n * to_size_t s) % SIZE_T_MOD) 1
      · have hmax2 : (a.max_size : Int) < shape.prod % 2 ^ 64 := by
          rw [← hcast]; exact_mod_cast hmax
        rw [new_length_error a shape hne hpos hmax]
        refine ⟨by simp [hgood], ?_, fun _ _ => rfl, fun _ h _ => absurd h (by omega)⟩
        constructor
        · rintro ⟨t, ht⟩; cases ht
        · rintro ⟨_, h, _⟩; omega
      · by_cases hav : a.available
            < shape.foldl (fun n s => (n * to_size_t s) % SIZE_T_MOD) 1
        · have hav2 : (a.available : Int) < shape.prod % 2 ^ 64 := by
            rw [← hcast]; exact_mod_cast hav
          rw [new_bad_alloc a shape hne hpos (Nat.not_lt.mp hmax) hav]
          have hmax2 : shape.prod % 2 ^ 64 ≤ (a.max_size : Int) := by
            rw [← hcast]; exact_mod_cast (Nat.not_lt.mp hmax)
          refine ⟨by simp [hgood], ?_, fun _ h => absurd h (by omega), fun _ _ _ => rfl⟩
          constructor
          · rintro ⟨t, ht⟩; cases ht
          · rintro ⟨_, _, h⟩; omega
        · have hmax2 : shape.prod % 2 ^ 64 ≤ (a.max_size : Int) := by
            rw [← hcast]; exact_mod_cast (Nat.not_lt.mp hmax)
          have hav2 : shape.prod % 2 ^ 64 ≤ (a.available : Int) := by
            rw [← hcast]; exact_mod_cast (Nat.not_lt.mp hav)
          rw [new_of_valid a shape hne hpos (Nat.not_lt.mp hmax) (Nat.not_lt.mp hav)]
          refine ⟨by simp [hgood], ?_, fun _ h => absurd h (by omega),
            fun _ _ h => absurd h (by omega)⟩
          exact ⟨fun _ => ⟨hgood, hmax2, hav2⟩, fun _ => ⟨_, rfl⟩⟩
    · push_neg at hpos
      have hbad : shape = [] ∨ ∃ s ∈ shape, s ≤ 0 := Or.inr hpos
      rw [new_not_positive a shape hne hpos]
      refine ⟨by simp [hbad], ?_, fun h => absurd hbad h, fun h => absurd hbad h⟩
      constructor
      · rintro ⟨t, ht⟩; cases ht
      · rintro ⟨h, _⟩; exact absurd hbad h

/-- C8, witness: with the sample allocator the shape `{2147483647, 2147483647, 2}`
is above `max_size()` and the shape `{65536, 65536, 65536}` is above what the run
provides. -/
theorem C8_constructor_failure_witness :
    (¬ (([2147483647, 2147483647, 2] : List Int) = [] ∨
        ∃ s ∈ ([2147483647, 2147483647, 2] : List Int), s ≤ 0) ∧
      (sample_allocator.max_size : Int)
        < ([2147483647, 2147483647, 2] : List Int).prod % 2 ^ 64 ∧
      ¬ (([65536, 65536, 65536] : List Int) = [] ∨
        ∃ s ∈ ([65536, 65536, 65536] : List Int), s ≤ 0) ∧
      ([65536, 65536, 65536] : List Int).prod % 2 ^ 64 ≤ (sample_allocator.max_size : Int) ∧
      (sample_allocator.available : Int) < ([65536, 65536, 65536] : List Int).prod % 2 ^ 64) ∧
    (Tensor.new sample_allocator [2147483647, 2147483647, 2] : Except Fault (Tensor Int))
      = .error .length_error ∧
    (Tensor.new sample_allocator [65536, 65536, 65536] : Except Fault (Tensor Int))
      = .error .bad_alloc := by
  have h1 : ¬ (([2147483647, 2147483647, 2] : List Int) = [] ∨
      ∃ s ∈ ([2147483647, 2147483647, 2] : List Int), s ≤ 0) := by decide
  have h2 : ¬ (([65536, 65536, 65536] : List Int) = [] ∨
      ∃ s ∈ ([65536, 65536, 65536] : List Int), s ≤ 0) := by decide
  exact ⟨⟨h1, by decide, h2, by decide, by decide⟩,
    (C8_constructor_failure sample_allocator [2147483647, 2147483647, 2]).2.2.1 h1 (by decide),
    (C8_constructor_failure sample_allocator [65536, 65536, 65536]).2.2.2 h2 (by decide)
      (by decide)⟩

/-- C8 as stated fails: the shape `{2147483647, 2147483647, 2}` is not empty and
has no entry `<= 0`, and with every allocator the constructor does not succeed: it
throws `std::length_error`, because `size()` is 9223372028264841218 and no
`std::vector<float>` has that many elements. -/
theorem C8_counterexample :
    ([2147483647, 2147483647, 2] : List Int) ≠ [] ∧
    (∀ s ∈ ([2147483647, 2147483647, 2] : List Int), 0 < s) ∧
    (⟨[2147483647, 2147483647, 2], [], []⟩ : Tensor Int).size = 9223372028264841218 ∧
    ∀ a : Allocator,
      (Tensor.new a [2147483647, 2147483647, 2] : Except Fault (Tensor Int))
        = .error .length_error ∧
      ¬ ∃ t : Tensor Int, Tensor.new a [2147483647, 2147483647, 2] = .ok t :=
  ⟨by decide, by decide, by decide, fun a =>
    ⟨new_too_large a, fun ⟨t, ht⟩ => by rw [new_too_large a] at ht; cases ht⟩⟩

/-- C9: for every tensor of the constructor and every index sequence,
`index_from_indices` throws `std::out_of_range` if and only if the number of
entries differs from the number of dimensions or some entry is negative or
`>= shape[i]`, and it throws nothing else; `get` and `set` throw that same exception
in exactly those cases and throw no exception of their own.  When the product of the
shape entries is below `2 ^ 64`, `get` and `set` return exactly when
`index_from_indices` returns. -/
theorem C9_index_errors [Zero F] (t : Tensor F) (idx : List Int) (v : F)
    (ht : Produced t) :
    ((∃ m, t.index_from_indices idx = .error (.out_of_range m)) ↔ BadIndex t.shape_ idx) ∧
    (∀ f, t.index_from_indices idx = .error f → ∃ m, f = .out_of_range m) ∧
    (∀ m, t.get idx = .error (.out_of_range m) ↔
      t.index_from_indices idx = .error (.out_of_range m)) ∧
    (∀ m, (t.set idx v).1 = .error (.out_of_range m) ↔
      t.index_from_indices idx = .error (.out_of_range m)) ∧
    (∀ m, t.get idx ≠ .error (.invalid_argument m) ∧
      (t.set idx v).1 ≠ .error (.invalid_argument m)) ∧
    (t.shape_.prod < 2 ^ 64 →
      ((∃ x, t.get idx = .ok x) ↔ ∃ off, t.index_from_indices idx = .ok off) ∧
      ((t.set idx v).1 = .ok () ↔ ∃ off, t.index_from_indices idx = .ok off)) := by
  have hwf := produced_wf ht
  refine ⟨index_from_indices_error_iff t idx, index_from_indices_error_kind t idx,
    ?_, ?_, ?_, fun hfit => ?_⟩
  · intro m
    cases h : t.index_from_indices idx with
    | error f => simp [get_of_index_error t idx f h]
    | ok off =>
      rcases get_ok_or_outside t idx off h with ⟨x, hx⟩ | hx <;> rw [hx] <;> simp
  · intro m
    cases h : t.index_from_indices idx with
    | error f => simp [set_of_index_error t idx v f h]
    | ok off =>
      rcases set_ok_or_outside t idx v off h with hx | hx <;> rw [hx] <;> simp
  · intro m
    cases h : t.index_from_indices idx with
    | error f =>
      obtain ⟨m2, hm2⟩ := index_from_indices_error_kind t idx f h
      rw [get_of_index_error t idx f h, set_of_index_error t idx v f h, hm2]
      simp
    | ok off =>
      constructor
      · rcases get_ok_or_outside t idx off h with ⟨x, hx⟩ | hx <;> rw [hx] <;> simp
      · rcases set_ok_or_outside t idx v off h with hx | hx <;> rw [hx] <;> simp
  · have hfit2 := natProd_lt_of_prod hwf.pos hfit
    by_cases hv : ValidIndex t.shape_ idx
    · obtain ⟨hoff, hlt⟩ := index_from_indices_exact hwf hfit2 idx hv
      rw [get_of_index_ok t idx _ hoff hlt, set_of_index_ok t idx v _ hoff hlt, hoff]
      simp
    · obtain ⟨m, hm⟩ := index_from_indices_bad t idx ((badIndex_iff_not_valid _ _).mpr hv)
      rw [get_of_index_error t idx _ hm, set_of_index_error t idx v _ hm, hm]
      simp

/-- C9, witness: the tensor of shape `{2, 3}`, whose product 6 is below `2 ^ 64`,
and the index `{2, 0}`, whose first entry is not below `shape[0]`. -/
theorem C9_index_errors_witness :
    (Produced (⟨[2, 3], [3, 1], [0, 0, 0, 0, 0, 0]⟩ : Tensor Int) ∧
      ([2, 3] : List Int).prod < 2 ^ 64) ∧
    ((∃ m, (⟨[2, 3], [3, 1], [0, 0, 0, 0, 0, 0]⟩ : Tensor Int).index_from_indices [2, 0]
        = .error (.out_of_range m)) ↔ BadIndex [2, 3] [2, 0]) ∧
    ((∃ x, (⟨[2, 3], [3, 1], [0, 0, 0, 0, 0, 0]⟩ : Tensor Int).get [2, 0] = .ok x) ↔
      ∃ off, (⟨[2, 3], [3, 1], [0, 0, 0, 0, 0, 0]⟩ : Tensor Int).index_from_indices [2, 0]
        = .ok off) := by
  have hp : Produced (⟨[2, 3], [3, 1], [0, 0, 0, 0, 0, 0]⟩ : Tensor Int) :=
    Produced.new sample_allocator [2, 3] _ (by decide)
  have h := C9_index_errors _ [2, 0] 0 hp
  exact ⟨⟨hp, by decide⟩, h.1, (h.2.2.2.2.2 (by decide)).1⟩

/-- C10: for every tensor of the constructor, every index sequence with the wrong
number of entries or an out-of-range entry, and every value, `set` and `get` throw
`std::out_of_range`, and the tensor after the call of `set` is the tensor before it
(`get` is `const`). -/
theorem C10_failed_access_changes_nothing [Zero F] (t : Tensor F) (idx : List Int) (v : F)
    (ht : Produced t) (hbad : BadIndex t.shape_ idx) :
    ∃ m, t.set idx v = (.error (.out_of_range m), t) ∧
      t.get idx = .error (.out_of_range m) := by
  have _hwf := produced_wf ht
  obtain ⟨m, hm⟩ := index_from_indices_bad t idx hbad
  exact ⟨m, set_of_index_error t idx v _ hm, get_of_index_error t idx _ hm⟩

/-- C10, witness: the tensor of shape `{2, 3}` and the index `{0, 1, 2}` of the
wrong length. -/
theorem C10_failed_access_changes_nothing_witness :
    (Produced (⟨[2, 3], [3, 1], [0, 0, 0, 0, 0, 0]⟩ : Tensor Int) ∧
      BadIndex [2, 3] [0, 1, 2]) ∧
    ∃ m, (⟨[2, 3], [3, 1], [0, 0, 0, 0, 0, 0]⟩ : Tensor Int).set [0, 1, 2] 7
        = (.error (.out_of_range m), ⟨[2, 3], [3, 1], [0, 0, 0, 0, 0, 0]⟩) ∧
      (⟨[2, 3], [3, 1], [0, 0, 0, 0, 0, 0]⟩ : Tensor Int).get [0, 1, 2]
        = .error (.out_of_range m) := by
  have hp : Produced (⟨[2, 3], [3, 1], [0, 0, 0, 0, 0, 0]⟩ : Tensor Int) :=
    Produced.new sample_allocator [2, 3] _ (by decide)
  have hb : BadIndex [2, 3] [0, 1, 2] := Or.inl (by decide)
  exact ⟨⟨hp, hb⟩, C10_failed_access_changes_nothing _ [0, 1, 2] 7 hp hb⟩

/-! Claims C12, C13, C19 and C20 -/

/-- C20: for every tensor of the constructor and every rejected index sequence: when
the number of entries differs from the number of dimensions, `index_from_indices`
throws the arity error carrying both numbers, whatever the entries are; otherwise it
throws the bounds error for the smallest axis `i` with `idx[i] < 0` or
`idx[i] >= shape[i]`, carrying `idx[i]`, `i` and `shape[i]`. -/
theorem C20_error_payload [Zero F] (t : Tensor F) (idx : List Int)
    (ht : Produced t) (hbad : BadIndex t.shape_ idx) :
    (idx.length ≠ t.shape_.length →
      t.index_from_indices idx
        = .error (.out_of_range (.index_dims idx.length t.shape_.length))) ∧
    (idx.length = t.shape_.length →
      ∃ i, i < idx.length ∧
        (idx.getD i 0 < 0 ∨ idx.getD i 0 ≥ t.shape_.getD i 0) ∧
        (∀ k, k < i → 0 ≤ idx.getD k 0 ∧ idx.getD k 0 < t.shape_.getD k 0) ∧
        t.index_from_indices idx
          = .error (.out_of_range (.index_bounds (idx.getD i 0) i (t.shape_.getD i 0)))) := by
  have _hwf := produced_wf ht
  refine ⟨index_from_indices_dims t idx, fun hlen => ?_⟩
  have hex : ∃ i, i < idx.length ∧
      (idx.getD i 0 < 0 ∨ idx.getD i 0 ≥ t.shape_.getD i 0) := by
    rcases hbad with h | h
    · exact absurd hlen h
    · exact h
  classical
  have hj := Nat.find_spec hex
  have hbefore : ∀ k, k < Nat.find hex →
      0 ≤ idx.getD k 0 ∧ idx.getD k 0 < t.shape_.getD k 0 := by
    intro k hk
    have hmin := Nat.find_min hex hk
    have hk2 : k < idx.length := Nat.lt_trans hk hj.1
    rw [not_and] at hmin
    have := hmin hk2
    omega
  exact ⟨Nat.find hex, hj.1, hj.2, hbefore,
    index_from_indices_bounds t idx hlen (Nat.find hex) hj.1 hbefore hj.2⟩

/-- C20, witness: in the tensor of shape `{2, 3}` the index `{0, 1, 2}` has the wrong
length, and the index `{1, 5}` is first out of bounds at axis 1. -/
theorem C20_error_payload_witness :
    (Produced (⟨[2, 3], [3, 1], [0, 0, 0, 0, 0, 0]⟩ : Tensor Int) ∧
      BadIndex [2, 3] [0, 1, 2] ∧ ([0, 1, 2] : List Int).length ≠ ([2, 3] : List Int).length ∧
      BadIndex [2, 3] [1, 5] ∧ ([1, 5] : List Int).length = ([2, 3] : List Int).length) ∧
    (⟨[2, 3], [3, 1], [0, 0, 0, 0, 0, 0]⟩ : Tensor Int).index_from_indices [0, 1, 2]
      = .error (.out_of_range (.index_dims 3 2)) ∧
    ∃ i, i < 2 ∧
      (([1, 5] : List Int).getD i 0 < 0 ∨
        ([1, 5] : List Int).getD i 0 ≥ ([2, 3] : List Int).getD i 0) ∧
      (∀ k, k < i → 0 ≤ ([1, 5] : List Int).getD k 0 ∧
        ([1, 5] : List Int).getD k 0 < ([2, 3] : List Int).getD k 0) ∧
      (⟨[2, 3], [3, 1], [0, 0, 0, 0, 0, 0]⟩ : Tensor Int).index_from_indices [1, 5]
        = .error (.out_of_range
            (.index_bounds (([1, 5] : List Int).getD i 0) i (([2, 3] : List Int).getD i 0))) := by
  have hp : Produced (⟨[2, 3], [3, 1], [0, 0, 0, 0, 0, 0]⟩ : Tensor Int) :=
    Produced.new sample_allocator [2, 3] _ (by decide)
  have hb1 : BadIndex [2, 3] [0, 1, 2] := Or.inl (by decide)
  have hb2 : BadIndex [2, 3] [1, 5] := Or.inr ⟨1, by decide, by decide⟩
  exact ⟨⟨hp, hb1, by decide, hb2, by decide⟩,
    (C20_error_payload _ [0, 1, 2] hp hb1).1 (by decide),
    (C20_error_payload _ [1, 5] hp hb2).2 (by decide)⟩

theorem set_returns_lt (t : Tensor F) (idx : List Int) (v : F) (off : Nat)
    (h : t.index_from_indices idx = .ok off) (hs : (t.set idx v).1 = .ok ()) :
    off < t.data_.length := by
  by_contra hlt
  unfold Tensor.set at hs
  rw [h] at hs
  simp [hlt] at hs

theorem set_set_data (t : Tensor F) (idx jdx : List Int) (v w : F) (a b : Nat)
    (ha : t.index_from_indices idx = .ok a) (hb : t.index_from_indices jdx = .ok b)
    (hla : a < t.data_.length) (hlb : b < t.data_.length) :
    (t.set idx v).2.set jdx w
      = (.ok (), { t with data_ := (t.data_.set a v).set b w }) := by
  have h1 := set_of_index_ok t idx v a ha hla
  have h2 : (t.set idx v).2.index_from_indices jdx = .ok b := by
    rw [index_from_indices_congr t _ (set_shape t idx v) (set_strides t idx v), hb]
  have h3 : b < (t.set idx v).2.data_.length := by
    rw [set_data_length]; exact hlb
  rw [set_of_index_ok _ jdx w b h2 h3, h1]

/-- C19 (as amended): for every tensor of the constructor, valid indices `idx` and
`jdx` and values `v`, `w`: whenever `set(idx, w)` returns, `set(idx, v)` returns too
and `set(idx, v)` followed by `set(idx, w)` ends as `set(idx, w)` alone, with the same
tensor; and when the product of the shape entries is below `2 ^ 64`, the calls of
`set` return and, for `idx` different from `jdx`, `set(idx, v)` followed by
`set(jdx, w)` ends with the same tensor as `set(jdx, w)` followed by `set(idx, v)`. -/
theorem C19_set_overwrite_and_commute [Zero F] (t : Tensor F) (idx jdx : List Int)
    (v w : F) (ht : Produced t) (hi : ValidIndex t.shape_ idx)
    (hj : ValidIndex t.shape_ jdx) :
    ((t.set idx w).1 = .ok () →
      (t.set idx v).1 = .ok () ∧ (t.set idx v).2.set idx w = t.set idx w) ∧
    (t.shape_.prod < 2 ^ 64 →
      (t.set idx v).1 = .ok () ∧ (t.set jdx w).1 = .ok () ∧
      (idx ≠ jdx → (t.set idx v).2.set jdx w = (t.set jdx w).2.set idx v)) := by
  have hwf := produced_wf ht
  refine ⟨fun hret => ?_, fun hfit => ?_⟩
  · have hoff := index_from_indices_valid t idx hi
    have hlt := set_returns_lt t idx w _ hoff hret
    refine ⟨by rw [set_of_index_ok t idx v _ hoff hlt], ?_⟩
    rw [set_set_data t idx idx v w _ _ hoff hoff hlt hlt, set_of_index_ok t idx w _ hoff hlt,
      List.set_set]
  · have hfit2 := natProd_lt_of_prod hwf.pos hfit
    obtain ⟨ha, hla⟩ := index_from_indices_exact hwf hfit2 idx hi
    obtain ⟨hb, hlb⟩ := index_from_indices_exact hwf hfit2 jdx hj
    refine ⟨by rw [set_of_index_ok t idx v _ ha hla],
      by rw [set_of_index_ok t jdx w _ hb hlb], fun hne => ?_⟩
    have hdiff : flat t.shape_ idx ≠ flat t.shape_ jdx :=
      fun h => hne (flat_inj t.shape_ idx jdx hi hj h)
    rw [set_set_data t idx jdx v w _ _ ha hb hla hlb,
      set_set_data t jdx idx w v _ _ hb ha hlb hla, List.set_comm _ _ _ hdiff]

/-- C19, witness: the tensor of shape `{2, 3}`, indices `{1, 2}` and `{0, 1}`,
values 7 and 9. -/
theorem C19_set_overwrite_and_commute_witness :
    (Produced (⟨[2, 3], [3, 1], [0, 0, 0, 0, 0, 0]⟩ : Tensor Int) ∧
      ValidIndex [2, 3] [1, 2] ∧ ValidIndex [2, 3] [0, 1] ∧
      ((⟨[2, 3], [3, 1], [0, 0, 0, 0, 0, 0]⟩ : Tensor Int).set [1, 2] 9).1 = .ok () ∧
      ([2, 3] : List Int).prod < 2 ^ 64 ∧ ([1, 2] : List Int) ≠ [0, 1]) ∧
    (((⟨[2, 3], [3, 1], [0, 0, 0, 0, 0, 0]⟩ : Tensor Int).set [1, 2] 7).2.set [1, 2] 9
      = (⟨[2, 3], [3, 1], [0, 0, 0, 0, 0, 0]⟩ : Tensor Int).set [1, 2] 9) ∧
    (((⟨[2, 3], [3, 1], [0, 0, 0, 0, 0, 0]⟩ : Tensor Int).set [1, 2] 7).2.set [0, 1] 9
      = ((⟨[2, 3], [3, 1], [0, 0, 0, 0, 0, 0]⟩ : Tensor Int).set [0, 1] 9).2.set [1, 2] 7) := by
  have hp : Produced (⟨[2, 3], [3, 1], [0, 0, 0, 0, 0, 0]⟩ : Tensor Int) :=
    Produced.new sample_allocator [2, 3] _ (by decide)
  have h := C19_set_overwrite_and_commute _ [1, 2] [0, 1] 7 9 hp (by decide) (by decide)
  exact ⟨⟨hp, by decide, by decide, by decide, by decide, by decide⟩,
    (h.1 (by decide)).2, (h.2 (by decide)).2.2 (by decide)⟩

/-- C19 as stated fails: in the tensor of shape `{2, 2147418113, 429509837, 20}`
(8 elements) the distinct valid indices `{1, 0, 0, 0}` and `{0, 0, 0, 4}` share the
offset 4; all four calls of `set` return, and writing 1 at the first and then 2 at the
second leaves 2 at offset 4, while the other order leaves 1. -/
theorem C19_counterexample :
    ∃ t : Tensor Int, Tensor.new sample_allocator [2, 2147418113, 429509837, 20] = .ok t ∧
      ValidIndex t.shape_ [1, 0, 0, 0] ∧ ValidIndex t.shape_ [0, 0, 0, 4] ∧
      ([1, 0, 0, 0] : List Int) ≠ [0, 0, 0, 4] ∧
      (t.set [1, 0, 0, 0] 1).1 = .ok () ∧
      ((t.set [1, 0, 0, 0] 1).2.set [0, 0, 0, 4] 2).1 = .ok () ∧
      (t.set [0, 0, 0, 4] 2).1 = .ok () ∧
      ((t.set [0, 0, 0, 4] 2).2.set [1, 0, 0, 0] 1).1 = .ok () ∧
      ((t.set [1, 0, 0, 0] 1).2.set [0, 0, 0, 4] 2).2.data_ = [0, 0, 0, 0, 2, 0, 0, 0] ∧
      ((t.set [0, 0, 0, 4] 2).2.set [1, 0, 0, 0] 1).2.data_ = [0, 0, 0, 0, 1, 0, 0, 0] :=
  ⟨⟨[2, 2147418113, 429509837, 20], [4, 8590196740, 20, 1], [0, 0, 0, 0, 0, 0, 0, 0]⟩,
    by decide, by decide, by decide, by decide, by decide, by decide, by decide, by decide,
    by decide, by decide⟩

theorem new_invariant [Zero F] {a : Allocator} {shape : List Int} {t : Tensor F}
    (h : Tensor.new a shape = .ok t) : Invariant t := by
  have hwf := new_wf h
  exact ⟨hwf.ne, hwf.pos, hwf.strides_len, hwf.data_len, rfl⟩

theorem set_invariant {t : Tensor F} (h : Invariant t) (idx : List Int) (v : F) :
    Invariant (t.set idx v).2 := by
  obtain ⟨h1, h2, h3, h4, _⟩ := h
  have e1 := set_shape t idx v
  have e2 := set_strides t idx v
  have e3 := set_data_length t idx v
  refine ⟨by rw [e1]; exact h1, by rw [e1]; exact h2, by rw [e1, e2]; exact h3, ?_, rfl⟩
  rw [e3, h4]
  simp [Tensor.size, e1]

/-- C12: the predicate "`shape` is non-empty, every shape entry is `> 0`,
`strides.length = shape.length`, `data.length = size()` and `ndim() = shape.length`"
holds for every tensor the constructor returns, and a call of `set` on a tensor that
satisfies it, whether the call returns or throws, leaves a tensor that satisfies it
(after a throw, the same tensor).  The members `get`, `ndim` and `size` are `const`:
they are functions of the tensor and leave no other tensor behind. -/
theorem C12_invariant [Zero F] (a : Allocator) (shape : List Int) (t u : Tensor F)
    (idx : List Int) (v : F) :
    (Tensor.new a shape = .ok t → Invariant t) ∧
    (Invariant u → (u.set idx v).1 = .ok () → Invariant (u.set idx v).2) ∧
    (Invariant u → ∀ m, (u.set idx v).1 = .error (.out_of_range m) →
      (u.set idx v).2 = u ∧ Invariant (u.set idx v).2) := by
  refine ⟨new_invariant, fun h _ => set_invariant h idx v, fun h m hm => ?_⟩
  refine ⟨?_, set_invariant h idx v⟩
  cases hidx : u.index_from_indices idx with
  | error f => rw [set_of_index_error u idx v f hidx]
  | ok off =>
    rcases set_ok_or_outside u idx v off hidx with hx | hx <;> rw [hx] at hm <;> cases hm

/-- C12, witness: the tensor of shape `{2, 3}`, a call of `set` that returns and one
that throws. -/
theorem C12_invariant_witness :
    ((Tensor.new sample_allocator [2, 3] : Except Fault (Tensor Int))
        = .ok ⟨[2, 3], [3, 1], [0, 0, 0, 0, 0, 0]⟩ ∧
      ((⟨[2, 3], [3, 1], [0, 0, 0, 0, 0, 0]⟩ : Tensor Int).set [1, 2] 7).1 = .ok () ∧
      ((⟨[2, 3], [3, 1], [0, 0, 0, 0, 0, 0]⟩ : Tensor Int).set [2, 0] 7).1
        = .error (.out_of_range (.index_bounds 2 0 2))) ∧
    Invariant (⟨[2, 3], [3, 1], [0, 0, 0, 0, 0, 0]⟩ : Tensor Int) ∧
    Invariant ((⟨[2, 3], [3, 1], [0, 0, 0, 0, 0, 0]⟩ : Tensor Int).set [1, 2] 7).2 ∧
    Invariant ((⟨[2, 3], [3, 1], [0, 0, 0, 0, 0, 0]⟩ : Tensor Int).set [2, 0] 7).2 := by
  have h0 : (Tensor.new sample_allocator [2, 3] : Except Fault (Tensor Int))
      = .ok ⟨[2, 3], [3, 1], [0, 0, 0, 0, 0, 0]⟩ := by decide
  have hinv := (C12_invariant sample_allocator [2, 3]
    (⟨[2, 3], [3, 1], [0, 0, 0, 0, 0, 0]⟩ : Tensor Int)
    ⟨[2, 3], [3, 1], [0, 0, 0, 0, 0, 0]⟩ [1, 2] 7).1 h0
  exact ⟨⟨h0, by decide, by decide⟩, hinv,
    (C12_invariant sample_allocator [2, 3] (⟨[2, 3], [3, 1], [0, 0, 0, 0, 0, 0]⟩ : Tensor Int)
      ⟨[2, 3], [3, 1], [0, 0, 0, 0, 0, 0]⟩ [1, 2] 7).2.1 hinv (by decide),
    ((C12_invariant sample_allocator [2, 3] (⟨[2, 3], [3, 1], [0, 0, 0, 0, 0, 0]⟩ : Tensor Int)
      ⟨[2, 3], [3, 1], [0, 0, 0, 0, 0, 0]⟩ [2, 0] 7).2.2 hinv (.index_bounds 2 0 2)
        (by decide)).2⟩

theorem new_2_3 [Zero F] (a : Allocator) (hmax : 6 ≤ a.max_size) (hav : 6 ≤ a.available) :
    (Tensor.new a [2, 3] : Except Fault (Tensor F))
      = .ok ⟨[2, 3], [3, 1], [0, 0, 0, 0, 0, 0]⟩ := by
  rw [new_of_valid a [2, 3] (by decide) (by decide) hmax hav]
  rfl

theorem new_2_2_2 [Zero F] (a : Allocator) (hmax : 8 ≤ a.max_size) (hav : 8 ≤ a.available) :
    (Tensor.new a [2, 2, 2] : Except Fault (Tensor F))
      = .ok ⟨[2, 2, 2], [4, 2, 1], [0, 0, 0, 0, 0, 0, 0, 0]⟩ := by
  rw [new_of_valid a [2, 2, 2] (by decide) (by decide) hmax hav]
  rfl

/-- C13: in `main`, once the tensor of shape `{2, 3}` is constructed, calling
`set({i, j}, val)` for `i` in `0..1` (outer loop) and `j` in `0..2` (inner loop) with
`val` counting 1, 2, ..., 6 leaves the flat data buffer equal to `[1, 2, 3, 4, 5, 6]`
(as converted to `float`), and `get({1, 2})` then returns 6; with an allocator that
provides the 8 elements of the larger of its two tensors, `main` runs to its end. -/
theorem C13_main_demo [Zero F] (a : Allocator) (cast : Int → F) (c1 c2 : F) :
    (∀ t : Tensor F, Tensor.new a [2, 3] = .ok t →
      main_fill cast t
        = .ok (⟨[2, 3], [3, 1], [cast 1, cast 2, cast 3, cast 4, cast 5, cast 6]⟩, 7)) ∧
    (⟨[2, 3], [3, 1], [cast 1, cast 2, cast 3, cast 4, cast 5, cast 6]⟩ : Tensor F).get [1, 2]
      = .ok (cast 6) ∧
    (8 ≤ a.max_size → 8 ≤ a.available →
      main a cast c1 c2
        = .ok (⟨[2, 3], [3, 1], [cast 1, cast 2, cast 3, cast 4, cast 5, cast 6]⟩, cast 6,
            ⟨[2, 2, 2], [4, 2, 1], [c1, 0, 0, 0, 0, 0, 0, c2]⟩)) := by
  refine ⟨fun t ht => ?_, ?_, fun hmax hav => ?_⟩
  · obtain ⟨_, _, hteq, _, _⟩ := new_ok_inv ht
    subst hteq
    simp [main_fill, after_set, Tensor.set, Tensor.index_from_indices,
      index_loop, List.range, List.range.loop, compute_strides_loop, to_size_t, SIZE_T_MOD,
      List.foldlM, bind, Except.bind, pure, Except.pure]
  · simp [Tensor.get, Tensor.index_from_indices, index_loop, to_size_t, SIZE_T_MOD]
  · simp [main, new_2_3 a (by omega) (by omega), new_2_2_2 a hmax hav, Tensor.print,
      Tensor.get, main_fill, after_set, Tensor.set,
      Tensor.index_from_indices, index_loop, List.range, List.range.loop,
      to_size_t, SIZE_T_MOD, List.foldlM, bind, Except.bind, pure,
      Except.pure, List.enum, List.enumFrom]

/-- C13, witness: the sample allocator provides the 8 elements. -/
theorem C13_main_demo_witness :
    ((Tensor.new sample_allocator [2, 3] : Except Fault (Tensor Int))
        = .ok ⟨[2, 3], [3, 1], [0, 0, 0, 0, 0, 0]⟩ ∧
      8 ≤ sample_allocator.max_size ∧ 8 ≤ sample_allocator.available) ∧
    main_fill (fun x => x) (⟨[2, 3], [3, 1], [0, 0, 0, 0, 0, 0]⟩ : Tensor Int)
      = .ok (⟨[2, 3], [3, 1], [1, 2, 3, 4, 5, 6]⟩, 7) ∧
    main sample_allocator (fun x => x) (15 : Int) 925
      = .ok (⟨[2, 3], [3, 1], [1, 2, 3, 4, 5, 6]⟩, 6,
          ⟨[2, 2, 2], [4, 2, 1], [15, 0, 0, 0, 0, 0, 0, 925]⟩) := by
  have h0 : (Tensor.new sample_allocator [2, 3] : Except Fault (Tensor Int))
      = .ok ⟨[2, 3], [3, 1], [0, 0, 0, 0, 0, 0]⟩ := by decide
  have h := C13_main_demo sample_allocator (fun x : Int => x) 15 925
  exact ⟨⟨h0, by decide, by decide⟩, h.1 _ h0, h.2.2 (by decide) (by decide)⟩

/-! Row-major order (claim C11) -/

theorem flatMap_range_eq_map {α : Type} (g : Nat → Nat → α) (P : Nat) :
    ∀ n, (List.range n).flatMap (fun x => (List.range P).map (g x))
      = (List.range (n * P)).map (fun k => g (k / P) (k % P)) := by
  intro n
  induction n with
  | zero => simp
  | succ n ih =>
    rw [List.range_succ, List.flatMap_append, ih, Nat.succ_mul, List.range_add,
      List.map_append, List.map_map]
    congr 1
    simp only [List.flatMap_cons, List.flatMap_nil, List.append_nil]
    apply List.map_congr_left
    intro y hy
    have hy2 : y < P := List.mem_range.mp hy
    have hP : 0 < P := by omega
    simp only [Function.comp]
    rw [Nat.mul_comm n P, Nat.mul_add_div hP, Nat.div_eq_of_lt hy2, Nat.mul_add_mod,
      Nat.mod_eq_of_lt hy2, Nat.add_zero]

theorem allIndices_map_flat : ∀ shape : List Int,
    (allIndices shape).map (flat shape) = List.range (natProd shape) := by
  intro shape
  induction shape with
  | nil => rfl
  | cons s ss ih =>
    rw [allIndices, List.map_flatMap, natProd_cons]
    have hinner : ∀ x : Nat,
        List.map (flat (s :: ss)) ((allIndices ss).map (fun xs => (x : Int) :: xs))
          = (List.range (natProd ss)).map (fun y => x * natProd ss + y) := by
      intro x
      rw [← ih, List.map_map, List.map_map]
      apply List.map_congr_left
      intro xs _
      simp [flat]
    simp only [hinner]
    rw [flatMap_range_eq_map (fun x y => x * natProd ss + y)]
    conv_rhs => rw [← List.map_id (List.range (s.toNat * natProd ss))]
    apply List.map_congr_left
    intro k _
    exact Nat.div_add_mod' k (natProd ss)

theorem mem_allIndices : ∀ (shape idx : List Int),
    idx ∈ allIndices shape ↔ ValidIndex shape idx := by
  intro shape
  induction shape with
  | nil =>
    intro idx
    rw [validIndex_nil_left]
    simp [allIndices]
  | cons s ss ih =>
    intro idx
    rw [allIndices, List.mem_flatMap]
    constructor
    · rintro ⟨x, hx, hmem⟩
      obtain ⟨xs, hxs, rfl⟩ := List.mem_map.mp hmem
      have hx2 : x < s.toNat := List.mem_range.mp hx
      rw [validIndex_cons]
      exact ⟨⟨by omega, by omega⟩, (ih xs).mp hxs⟩
    · intro hv
      cases idx with
      | nil => exact absurd hv (validIndex_nil_right s ss)
      | cons x xs =>
        obtain ⟨⟨h0, h1⟩, hxs⟩ := (validIndex_cons s x ss xs).mp hv
        refine ⟨x.toNat, List.mem_range.mpr (by omega), List.mem_map.mpr ⟨xs, (ih xs).mpr hxs, ?_⟩⟩
        rw [Int.toNat_of_nonneg h0]

theorem flat_lt_of_lexLt : ∀ (shape a b : List Int), ValidIndex shape a →
    ValidIndex shape b → lexLt a b → flat shape a < flat shape b := by
  intro shape
  induction shape with
  | nil =>
    intro a b ha _ hlt
    rw [(validIndex_nil_left a).mp ha] at hlt
    simp [lexLt] at hlt
  | cons s ss ih =>
    intro a b ha hb hlt
    cases a with
    | nil => exact absurd ha (validIndex_nil_right s ss)
    | cons x xs =>
      cases b with
      | nil => exact absurd hb (validIndex_nil_right s ss)
      | cons y ys =>
        obtain ⟨⟨hx0, _⟩, hxv⟩ := (validIndex_cons s x ss xs).mp ha
        obtain ⟨⟨hy0, _⟩, hyv⟩ := (validIndex_cons s y ss ys).mp hb
        have hrx := flat_lt ss xs hxv
        simp only [flat]
        rcases hlt with h | ⟨h, hrest⟩
        · have hxy : x.toNat + 1 ≤ y.toNat := by omega
          have := Nat.mul_le_mul_right (natProd ss) hxy
          nlinarith
        · subst h
          have := ih xs ys hxv hyv hrest
          omega

theorem lexLt_trichotomy : ∀ (shape a b : List Int), ValidIndex shape a →
    ValidIndex shape b → lexLt a b ∨ a = b ∨ lexLt b a := by
  intro shape
  induction shape with
  | nil =>
    intro a b ha hb
    rw [(validIndex_nil_left a).mp ha, (validIndex_nil_left b).mp hb]
    exact Or.inr (Or.inl rfl)
  | cons s ss ih =>
    intro a b ha hb
    cases a with
    | nil => exact absurd ha (validIndex_nil_right s ss)
    | cons x xs =>
      cases b with
      | nil => exact absurd hb (validIndex_nil_right s ss)
      | cons y ys =>
        obtain ⟨_, hxv⟩ := (validIndex_cons s x ss xs).mp ha
        obtain ⟨_, hyv⟩ := (validIndex_cons s y ss ys).mp hb
        rcases lt_trichotomy x y with h | h | h
        · exact Or.inl (Or.inl h)
        · subst h
          rcases ih xs ys hxv hyv with h2 | h2 | h2
          · exact Or.inl (Or.inr ⟨rfl, h2⟩)
          · exact Or.inr (Or.inl (by rw [h2]))
          · exact Or.inr (Or.inr (Or.inr ⟨rfl, h2⟩))
        · exact Or.inr (Or.inr (Or.inl h))

theorem lexLt_of_flat_lt (shape a b : List Int) (ha : ValidIndex shape a)
    (hb : ValidIndex shape b) (h : flat shape a < flat shape b) : lexLt a b := by
  rcases lexLt_trichotomy shape a b ha hb with h2 | h2 | h2
  · exact h2
  · rw [h2] at h; exact absurd h (Nat.lt_irrefl _)
  · have := flat_lt_of_lexLt shape b a hb ha h2
    omega

theorem flat_succ_of_next (shape a b : List Int) (hpos : ∀ s ∈ shape, 0 < s)
    (ha : ValidIndex shape a) (hb : ValidIndex shape b) (hlt : lexLt a b)
    (hnext : ∀ c, ValidIndex shape c → ¬ (lexLt a c ∧ lexLt c b)) :
    flat shape b = flat shape a + 1 := by
  have h1 := flat_lt_of_lexLt shape a b ha hb hlt
  by_contra hne
  have h2 : flat shape a + 1 < flat shape b := by omega
  obtain ⟨c, hc, hfc⟩ := flat_surj shape hpos (flat shape a + 1)
    (Nat.lt_trans h2 (flat_lt shape b hb))
  exact hnext c hc ⟨lexLt_of_flat_lt shape a c ha hc (by omega),
    lexLt_of_flat_lt shape c b hc hb (by omega)⟩

theorem allIndices_pairwise (shape : List Int) : (allIndices shape).Pairwise lexLt := by
  have h1 : ((allIndices shape).map (flat shape)).Pairwise (fun x y => x < y) := by
    rw [allIndices_map_flat]; exact List.pairwise_lt_range _
  rw [List.pairwise_map] at h1
  exact h1.imp_of_mem (fun {a b} ha hb hlt =>
    lexLt_of_flat_lt shape a b ((mem_allIndices shape a).mp ha)
      ((mem_allIndices shape b).mp hb) hlt)

theorem dotFrom_zeros (strides : List Nat) : ∀ (n i : Nat),
    dotFrom strides (List.replicate n 0) i = 0 := by
  intro n
  induction n with
  | zero => intro i; rfl
  | succ n ih =>
    intro i
    rw [List.replicate_succ, dotFrom, ih]
    simp

theorem validIndex_zeros (shape : List Int) (hpos : ∀ s ∈ shape, 0 < s) :
    ValidIndex shape (List.replicate shape.length 0) := by
  refine ⟨by simp, fun i hi => ?_⟩
  have hmem : shape.getD i 0 ∈ shape := by
    rw [List.getD_eq_getElem _ _ hi]; exact List.getElem_mem _
  have := hpos _ hmem
  rw [List.getD_eq_getElem _ _ (by simpa using hi)]
  simpa using this

/-- C11 (as amended): for every tensor of the constructor the all-zero index has
offset 0, and `allIndices` lists exactly the valid indices, in lexicographic order.
When the product of the shape entries is below `2 ^ 64` the offset mapping is
row-major: a valid index that precedes another in lexicographic order has the
smaller offset, the lexicographic successor of a valid index has the offset one
greater, and the valid indices listed in lexicographic order have the offsets
`0, 1, ..., size() - 1` in that order. -/
theorem C11_row_major [Zero F] (t : Tensor F) (ht : Produced t) :
    t.index_from_indices (List.replicate t.shape_.length 0) = .ok 0 ∧
    (∀ idx, idx ∈ allIndices t.shape_ ↔ ValidIndex t.shape_ idx) ∧
    (allIndices t.shape_).Pairwise lexLt ∧
    (t.shape_.prod < 2 ^ 64 →
      (∀ a b, ValidIndex t.shape_ a → ValidIndex t.shape_ b → lexLt a b →
        ∃ oa ob, t.index_from_indices a = .ok oa ∧ t.index_from_indices b = .ok ob ∧
          oa < ob) ∧
      (∀ a b, ValidIndex t.shape_ a → ValidIndex t.shape_ b → lexLt a b →
        (∀ c, ValidIndex t.shape_ c → ¬ (lexLt a c ∧ lexLt c b)) →
        ∃ oa, t.index_from_indices a = .ok oa ∧ t.index_from_indices b = .ok (oa + 1)) ∧
      (allIndices t.shape_).map t.index_from_indices = (List.range t.size).map .ok) := by
  have hwf := produced_wf ht
  refine ⟨?_, mem_allIndices t.shape_, allIndices_pairwise t.shape_, fun hfit => ?_⟩
  · rw [index_from_indices_valid t _ (validIndex_zeros t.shape_ hwf.pos), dotFrom_zeros]
    rfl
  · have hfit2 := natProd_lt_of_prod hwf.pos hfit
    refine ⟨fun a b ha hb hlt => ?_, fun a b ha hb hlt hnext => ?_, ?_⟩
    · exact ⟨_, _, (index_from_indices_exact hwf hfit2 a ha).1,
        (index_from_indices_exact hwf hfit2 b hb).1, flat_lt_of_lexLt t.shape_ a b ha hb hlt⟩
    · refine ⟨_, (index_from_indices_exact hwf hfit2 a ha).1, ?_⟩
      rw [(index_from_indices_exact hwf hfit2 b hb).1,
        flat_succ_of_next t.shape_ a b hwf.pos ha hb hlt hnext]
    · rw [size_exact hwf hfit2, ← allIndices_map_flat, List.map_map]
      apply List.map_congr_left
      intro idx hidx
      exact (index_from_indices_exact hwf hfit2 idx ((mem_allIndices _ _).mp hidx)).1

/-- C11, witness: the tensor of shape `{2, 3}`; `{0, 2}` precedes `{1, 0}`, which is
its lexicographic successor. -/
theorem C11_row_major_witness :
    (Produced (⟨[2, 3], [3, 1], [0, 0, 0, 0, 0, 0]⟩ : Tensor Int) ∧
      ([2, 3] : List Int).prod < 2 ^ 64 ∧
      ValidIndex [2, 3] [0, 2] ∧ ValidIndex [2, 3] [1, 0] ∧ lexLt [0, 2] [1, 0]) ∧
    (∃ oa ob, (⟨[2, 3], [3, 1], [0, 0, 0, 0, 0, 0]⟩ : Tensor Int).index_from_indices [0, 2]
        = .ok oa ∧
      (⟨[2, 3], [3, 1], [0, 0, 0, 0, 0, 0]⟩ : Tensor Int).index_from_indices [1, 0] = .ok ob ∧
      oa < ob) ∧
    (allIndices [2, 3]).map
        (⟨[2, 3], [3, 1], [0, 0, 0, 0, 0, 0]⟩ : Tensor Int).index_from_indices
      = (List.range (⟨[2, 3], [3, 1], [0, 0, 0, 0, 0, 0]⟩ : Tensor Int).size).map .ok := by
  have hp : Produced (⟨[2, 3], [3, 1], [0, 0, 0, 0, 0, 0]⟩ : Tensor Int) :=
    Produced.new sample_allocator [2, 3] _ (by decide)
  have h := (C11_row_major _ hp).2.2.2 (by decide)
  exact ⟨⟨hp, by decide, by decide, by decide, by decide⟩,
    h.1 [0, 2] [1, 0] (by decide) (by decide) (by decide), h.2.2⟩

/-- C11 as stated fails: in the tensor of shape `{2, 2147418113, 429509837, 20}` the
valid index `{0, 0, 0, 4}` precedes the valid index `{1, 0, 0, 0}` in lexicographic
order, and both have offset 4. -/
theorem C11_counterexample :
    ∃ t : Tensor Int, Tensor.new sample_allocator [2, 2147418113, 429509837, 20] = .ok t ∧
      ValidIndex t.shape_ [0, 0, 0, 4] ∧ ValidIndex t.shape_ [1, 0, 0, 0] ∧
      lexLt [0, 0, 0, 4] [1, 0, 0, 0] ∧
      t.index_from_indices [0, 0, 0, 4] = .ok 4 ∧
      t.index_from_indices [1, 0, 0, 0] = .ok 4 ∧ ¬ (4 < 4) :=
  ⟨⟨[2, 2147418113, 429509837, 20], [4, 8590196740, 20, 1], [0, 0, 0, 0, 0, 0, 0, 0]⟩,
    by decide, by decide, by decide, by decide, by decide, by decide, by decide⟩

/-! Absence of wraparound (claim C18) -/

theorem natProd_append (l₁ l₂ : List Int) :
    natProd (l₁ ++ l₂) = natProd l₁ * natProd l₂ := by
  simp [natProd]

theorem natProd_take_le {l : List Int} (h : ∀ s ∈ l, 0 < s) (k : Nat) :
    natProd (l.take k) ≤ natProd l := by
  have hsplit : natProd l = natProd (l.take k) * natProd (l.drop k) := by
    rw [← natProd_append, List.take_append_drop]
  have hpos : 0 < natProd (l.drop k) := natProd_pos (drop_pos h k)
  rw [hsplit]
  exact Nat.le_mul_of_pos_right _ hpos

theorem natProd_take_succ (l : List Int) (k : Nat) (hk : k < l.length) :
    natProd (l.take (k + 1)) = natProd (l.take k) * (l.getD k 0).toNat := by
  rw [List.take_succ, natProd_append, List.getElem?_eq_getElem hk,
    List.getD_eq_getElem _ _ hk]
  simp

theorem to_size_t_le {s : Int} (h : 0 ≤ s) : to_size_t s ≤ s.toNat := by
  rw [to_size_t_of_nonneg h]
  exact Nat.mod_le _ _

theorem dotFrom_take_succ (strides : List Nat) : ∀ (rest : List Int) (j i : Nat),
    i < rest.length →
    dotFrom strides (rest.take (i + 1)) j
      = dotFrom strides (rest.take i) j + (rest.getD i 0).toNat * strides.getD (j + i) 0 := by
  intro rest
  induction rest with
  | nil => intro j i hi; simp at hi
  | cons x xs ih =>
    intro j i hi
    cases i with
    | zero => simp [dotFrom]
    | succ i =>
      have hi2 : i < xs.length := by simpa using hi
      rw [List.take_succ_cons, dotFrom, ih (j + 1) i hi2, List.take_succ_cons, dotFrom,
        List.getD_cons_succ]
      have : j + 1 + i = j + (i + 1) := by omega
      rw [this, Nat.add_assoc]

theorem dotFrom_take_le (strides : List Nat) : ∀ (rest : List Int) (j k : Nat),
    dotFrom strides (rest.take k) j ≤ dotFrom strides rest j := by
  intro rest
  induction rest with
  | nil => intro j k; simp
  | cons x xs ih =>
    intro j k
    cases k with
    | zero => simp [dotFrom]
    | succ k =>
      rw [List.take_succ_cons, dotFrom, dotFrom]
      exact Nat.add_le_add_left (ih (j + 1) k) _

/-- C18: with `size_t` as 64-bit unsigned arithmetic, for every tensor of the
constructor `size()` is the product of the shape entries modulo `2 ^ 64` and each
`strides[i]` is the product of `shape[i+1..last]` modulo `2 ^ 64`.  When the exact
product of the shape entries is below `2 ^ 64`, no operation wraps: in `size()` the
value of `n` after `k` iterations times the next entry, in `compute_strides` the
stride of axis `i` times `shape[i]`, and in `index_from_indices` the product
`idx[i] * strides[i]` and its sum with the offset after `i` iterations, all stay below
`2 ^ 64`; so `size()`, every stride and the offset of every valid index have their
exact values. -/
theorem C18_size_t_arithmetic [Zero F] (t : Tensor F) (ht : Produced t) :
    (t.size : Int) = t.shape_.prod % 2 ^ 64 ∧
    (∀ i, i < t.shape_.length →
      (t.strides_.getD i 0 : Int) = (t.shape_.drop (i + 1)).prod % 2 ^ 64) ∧
    (t.shape_.prod < 2 ^ 64 →
      (∀ k, k < t.shape_.length →
        ({ t with shape_ := t.shape_.take k } : Tensor F).size
          * to_size_t (t.shape_.getD k 0) < SIZE_T_MOD) ∧
      (∀ i, i < t.shape_.length →
        t.strides_.getD i 0 * to_size_t (t.shape_.getD i 0) < SIZE_T_MOD) ∧
      (∀ idx, ValidIndex t.shape_ idx → ∀ i, i < idx.length →
        ∃ o, index_loop t.shape_ t.strides_ (idx.take i) 0 0 = .ok o ∧
          to_size_t (idx.getD i 0) * t.strides_.getD i 0 < SIZE_T_MOD ∧
          o + to_size_t (idx.getD i 0) * t.strides_.getD i 0 < SIZE_T_MOD) ∧
      (t.size : Int) = t.shape_.prod ∧
      (∀ i, i < t.shape_.length →
        (t.strides_.getD i 0 : Int) = (t.shape_.drop (i + 1)).prod) ∧
      (∀ idx, ValidIndex t.shape_ idx →
        ∃ off, t.index_from_indices idx = .ok off ∧
          (off : Int) = ∑ i in Finset.range idx.length,
            idx.getD i 0 * (t.strides_.getD i 0 : Int))) := by
  have hwf := produced_wf ht
  have hnn : ∀ s ∈ t.shape_, 0 ≤ s := fun s hs => (hwf.pos s hs).le
  have hmodsize : (t.size : Int) = t.shape_.prod % 2 ^ 64 := by
    rw [size_eq_mod t hnn, ← natProd_cast hwf.pos]
    simp [SIZE_T_MOD]
  have hmodstr : ∀ i, i < t.shape_.length →
      (t.strides_.getD i 0 : Int) = (t.shape_.drop (i + 1)).prod % 2 ^ 64 := by
    intro i hi
    rw [hwf.strides_val i hi, ← natProd_cast (drop_pos hwf.pos (i + 1))]
    simp [SIZE_T_MOD]
  refine ⟨hmodsize, hmodstr, fun hfit => ?_⟩
  have hfit2 := natProd_lt_of_prod hwf.pos hfit
  have hentry : ∀ k, k < t.shape_.length → 0 < t.shape_.getD k 0 := by
    intro k hk
    apply hwf.pos
    rw [List.getD_eq_getElem _ _ hk]
    exact List.getElem_mem _
  refine ⟨fun k hk => ?_, fun i hi => ?_, fun idx hv i hi => ?_, ?_, fun i hi => ?_,
    fun idx hv => ?_⟩
  · have hsz : ({ t with shape_ := t.shape_.take k } : Tensor F).size
        ≤ natProd (t.shape_.take k) := by
      rw [size_eq_mod _ (fun s hs => hnn s (List.mem_of_mem_take hs))]
      exact Nat.mod_le _ _
    calc ({ t with shape_ := t.shape_.take k } : Tensor F).size * to_size_t (t.shape_.getD k 0)
        ≤ natProd (t.shape_.take k) * (t.shape_.getD k 0).toNat :=
          Nat.mul_le_mul hsz (to_size_t_le (hentry k hk).le)
      _ = natProd (t.shape_.take (k + 1)) := (natProd_take_succ _ k hk).symm
      _ ≤ natProd t.shape_ := natProd_take_le hwf.pos _
      _ < SIZE_T_MOD := hfit2
  · calc t.strides_.getD i 0 * to_size_t (t.shape_.getD i 0)
        ≤ natProd (t.shape_.drop (i + 1)) * (t.shape_.getD i 0).toNat :=
          Nat.mul_le_mul (by rw [strides_exact hwf hfit2 i hi])
            (to_size_t_le (hentry i hi).le)
      _ = natProd (t.shape_.drop i) := by rw [natProd_drop_succ _ i hi, Nat.mul_comm]
      _ ≤ natProd t.shape_ := natProd_drop_le hwf.pos _
      _ < SIZE_T_MOD := hfit2
  · have hi2 : i < t.shape_.length := hv.1 ▸ hi
    have hprefix := index_loop_ok t.shape_ t.strides_ (idx.take i) 0 0 SIZE_T_MOD_pos
      (fun j hj => by
        have hj2 : j < i := by
          rw [List.length_take] at hj; omega
        have := hv.2 j (by omega)
        rw [List.getD_eq_getElem?_getD, List.getElem?_take_of_lt hj2,
          ← List.getD_eq_getElem?_getD]
        simpa using this)
    have htotal : dotFrom t.strides_ idx 0 < SIZE_T_MOD := by
      rw [dotFrom_exact hwf hfit2 idx hv]
      exact Nat.lt_trans (flat_lt _ _ hv) hfit2
    have hstep := dotFrom_take_succ t.strides_ idx 0 i hi
    have hle := dotFrom_take_le t.strides_ idx 0 (i + 1)
    rw [Nat.zero_add] at hstep
    have hterm : to_size_t (idx.getD i 0) * t.strides_.getD i 0
        ≤ (idx.getD i 0).toNat * t.strides_.getD i 0 :=
      Nat.mul_le_mul_right _ (to_size_t_le (hv.2 i hi2).1)
    have hpre : dotFrom t.strides_ (idx.take i) 0 < SIZE_T_MOD := by omega
    refine ⟨_, hprefix, by omega, ?_⟩
    rw [Nat.zero_add, Nat.mod_eq_of_lt hpre]
    omega
  · rw [size_exact hwf hfit2, natProd_cast hwf.pos]
  · rw [strides_exact hwf hfit2 i hi, natProd_cast (drop_pos hwf.pos (i + 1))]
  · refine ⟨_, index_from_indices_valid t idx hv, ?_⟩
    rw [← dotFrom_cast t.strides_ t.shape_ idx hv, dotFrom_exact hwf hfit2 idx hv,
      Nat.mod_eq_of_lt (Nat.lt_trans (flat_lt t.shape_ idx hv) hfit2)]

/-- C18, witness: the tensor of shape `{2, 3, 4}`, whose product 24 is below
`2 ^ 64`, and the valid index `{1, 2, 3}`. -/
theorem C18_size_t_arithmetic_witness :
    (Produced (⟨[2, 3, 4], [12, 4, 1], List.replicate 24 0⟩ : Tensor Int) ∧
      ([2, 3, 4] : List Int).prod < 2 ^ 64 ∧ ValidIndex [2, 3, 4] [1, 2, 3]) ∧
    ((⟨[2, 3, 4], [12, 4, 1], List.replicate 24 0⟩ : Tensor Int).size : Int)
      = ([2, 3, 4] : List Int).prod ∧
    ∃ off, (⟨[2, 3, 4], [12, 4, 1], List.replicate 24 0⟩ : Tensor Int).index_from_indices
        [1, 2, 3] = .ok off ∧
      (off : Int) = ∑ i in Finset.range 3,
        ([1, 2, 3] : List Int).getD i 0 * ((([12, 4, 1] : List Nat).getD i 0 : Nat) : Int) := by
  have hp : Produced (⟨[2, 3, 4], [12, 4, 1], List.replicate 24 0⟩ : Tensor Int) :=
    Produced.new sample_allocator [2, 3, 4] _ (by decide)
  have h := (C18_size_t_arithmetic _ hp).2.2 (by decide)
  exact ⟨⟨hp, by decide, by decide⟩, h.2.2.2.1, h.2.2.2.2.2 [1, 2, 3] (by decide)⟩

/-! The output of `print` (claim C14) -/

theorem sepList_cons (sep last : String) (x : Out F) (l : List (Out F)) :
    sepList sep last (x :: l)
      = x :: .text (if l.isEmpty then last else sep) :: sepList sep last l := by
  cases l with
  | nil => simp [sepList]
  | cons y r => simp [sepList]

theorem enum_loop_eq_sepList {α : Type} (f : α → Out F) (sep last : String) (N : Nat) :
    ∀ (l : List α) (k : Nat) (out : List (Out F)), k + l.length = N →
      (l.enumFrom k).foldl
          (fun out p => out ++ [f p.2, .text (if p.1 + 1 < N then sep else last)]) out
        = out ++ sepList sep last (l.map f) := by
  intro l
  induction l with
  | nil => intro k out _; simp [sepList]
  | cons x xs ih =>
    intro k out hk
    have hk2 : k + 1 + xs.length = N := by simp at hk; omega
    rw [List.enumFrom_cons, List.foldl_cons, ih (k + 1) _ hk2, List.map_cons, sepList_cons,
      List.append_assoc]
    have hsep : (if k + 1 < N then sep else last)
        = (if (List.map f xs).isEmpty then last else sep) := by
      cases xs with
      | nil =>
        have : ¬ (k + 1 < N) := by simp at hk2; omega
        simp [this]
      | cons y r =>
        have : k + 1 < N := by simp at hk2; omega
        simp [this]
    simp [hsep]

theorem foldlM_ok {α β : Type} (f : β → α → Except Fault β) (g : β → α → β) :
    ∀ (l : List α) (b : β), (∀ x, x ∈ l → ∀ b, f b x = .ok (g b x)) →
      l.foldlM f b = .ok (l.foldl g b) := by
  intro l
  induction l with
  | nil => intro b _; rfl
  | cons x xs ih =>
    intro b h
    rw [List.foldlM_cons, h x (List.mem_cons_self _ _) b, List.foldl_cons]
    exact ih (g b x) (fun y hy => h y (List.mem_cons_of_mem _ hy))

theorem foldl_append_flatMap {α β : Type} (k : α → List β) :
    ∀ (l : List α) (out : List β),
      l.foldl (fun out x => out ++ k x) out = out ++ l.flatMap k := by
  intro l
  induction l with
  | nil => intro out; simp
  | cons x xs ih =>
    intro out
    rw [List.foldl_cons, ih, List.flatMap_cons, List.append_assoc]

theorem range_sep_eq_sepList (item : Nat → Out F) (sep last : String) (cols : Int) :
    ∀ (n s : Nat), ((s + n : Nat) : Int) = cols →
      (List.range' s n).flatMap
          (fun c => [item c, .text (if (c : Int) + 1 < cols then sep else last)])
        = sepList sep last ((List.range' s n).map item) := by
  intro n
  induction n with
  | zero => intro s _; simp [sepList]
  | succ n ih =>
    intro s hcols
    rw [List.range'_succ, List.flatMap_cons, ih (s + 1) (by rw [← hcols]; congr 1; omega),
      List.map_cons, sepList_cons]
    have hsep : (if (s : Int) + 1 < cols then sep else last)
        = (if (List.map item (List.range' (s + 1) n)).isEmpty then last else sep) := by
      cases n with
      | zero =>
        have : ¬ ((s : Int) + 1 < cols) := by rw [← hcols]; push_cast; omega
        simp [this]
      | succ m =>
        have : (s : Int) + 1 < cols := by rw [← hcols]; push_cast; omega
        simp [this, List.range'_succ]
    simp [hsep]

theorem values_append (a b : List (Out F)) : values (a ++ b) = values a ++ values b := by
  induction a with
  | nil => rfl
  | cons x xs ih => cases x <;> simp [values, ih]

theorem values_flatMap {α : Type} (k : α → List (Out F)) (l : List α) :
    values (l.flatMap k) = l.flatMap (fun x => values (k x)) := by
  induction l with
  | nil => rfl
  | cons x xs ih => rw [List.flatMap_cons, values_append, ih, List.flatMap_cons]

theorem values_sepList_value {α : Type} (sep last : String) (g : α → F) (l : List α) :
    values (sepList sep last (l.map (fun x => Out.value (g x)))) = l.map g := by
  induction l with
  | nil => rfl
  | cons x xs ih => rw [List.map_cons, sepList_cons]; simp [values, ih]

theorem values_row {α : Type} (a b sep last : String) (g : α → F) (l : List α) :
    values ([Out.text a] ++ sepList sep last (l.map (fun x => Out.value (g x)))
      ++ [Out.text b]) = l.map g := by
  rw [values_append, values_append, values_sepList_value]
  simp [values]

theorem values_sepList_int (sep last : String) (l : List Int) :
    values (sepList sep last (l.map (Out.int : Int → Out F))) = [] := by
  induction l with
  | nil => rfl
  | cons x xs ih => rw [List.map_cons, sepList_cons]; simp [values, ih]

theorem map_getD_range [Zero F] (d : List F) :
    (List.range d.length).map (fun k => d.getD k 0) = d := by
  apply List.ext_getElem (by simp)
  intro n h1 h2
  simp [List.getElem?_eq_getElem h2]

theorem rows_concat [Zero F] (d : List F) (R C : Nat) (h : d.length = R * C) :
    (List.range R).flatMap (fun r => (List.range C).map (fun c => d.getD (r * C + c) 0)) = d := by
  rw [flatMap_range_eq_map (fun r c => d.getD (r * C + c) 0), ← h]
  conv_rhs => rw [← map_getD_range d]
  apply List.map_congr_left
  intro k _
  rw [Nat.div_add_mod' k C]

/-- In a tensor of two dimensions whose shape entries are `int` values, the element
at row `r` and column `c` is read from offset `r * cols + c`. -/
theorem get_2d [Zero F] {t : Tensor F} (hwf : WF t) (rows cols : Int)
    (hshape : t.shape_ = [rows, cols]) (h32 : ∀ s ∈ t.shape_, s < 2 ^ 31)
    (r c : Nat) (hr : r < rows.toNat) (hc : c < cols.toNat) :
    t.data_.length = rows.toNat * cols.toNat ∧
    t.get [(r : Int), (c : Int)] = .ok (t.data_.getD (r * cols.toNat + c) 0) := by
  have hR : rows < 2 ^ 31 := h32 rows (by rw [hshape]; simp)
  have hC : cols < 2 ^ 31 := h32 cols (by rw [hshape]; simp)
  have hprod : natProd t.shape_ = rows.toNat * cols.toNat := by rw [hshape]; simp
  have hRn : rows.toNat < 2 ^ 31 := by omega
  have hCn : cols.toNat < 2 ^ 31 := by omega
  have hfit : natProd t.shape_ < SIZE_T_MOD := by
    rw [hprod]
    have : rows.toNat * cols.toNat < 2 ^ 31 * 2 ^ 31 := Nat.mul_lt_mul'' hRn hCn
    unfold SIZE_T_MOD
    omega
  have hv : ValidIndex t.shape_ [(r : Int), (c : Int)] := by
    rw [hshape, validIndex_cons, validIndex_cons, validIndex_nil_left]
    exact ⟨⟨by omega, by omega⟩, ⟨by omega, by omega⟩, rfl⟩
  obtain ⟨hoff, hlt⟩ := index_from_indices_exact hwf hfit _ hv
  have hflat : flat t.shape_ [(r : Int), (c : Int)] = r * cols.toNat + c := by
    rw [hshape]; simp [flat]
  rw [hflat] at hoff hlt
  refine ⟨by rw [hwf.data_len, size_exact hwf hfit, hprod], ?_⟩
  rw [get_of_index_ok t _ _ hoff hlt, List.getD_eq_getElem _ _ hlt]

/-- C14: for every tensor of the constructor (with shape entries that are `int`
values), `print` returns and writes the shape entries in order, separated by `", "`,
between `"Tensor shape: ["` and `"]"`.  With exactly 2 dimensions it then writes
`shape[0]` rows of `shape[1]` values each, the value at row `r`, column `c` being the
one `get({r, c})` returns, which never fails; otherwise it writes
`"Data (flat): "` and the values of the data buffer in flat order on one line,
separated by `", "`.  In both cases the values written, in order, are exactly the
data buffer. -/
theorem C14_print [Zero F] (t : Tensor F) (ht : Produced t)
    (h32 : ∀ s ∈ t.shape_, s < 2 ^ 31) :
    ∃ body, t.print = .ok ([Out.text "Tensor shape: ["]
        ++ sepList ", " "" (t.shape_.map Out.int) ++ [Out.text "]\n"] ++ body) ∧
      values body = t.data_ ∧
      (t.shape_.length = 2 →
        body = (List.range (t.shape_.getD 0 0).toNat).flatMap (fun r =>
          [Out.text "[ "] ++ sepList ", " " "
            ((List.range (t.shape_.getD 1 0).toNat).map (fun c =>
              Out.value (t.data_.getD (r * (t.shape_.getD 1 0).toNat + c) 0)))
            ++ [Out.text "]\n"]) ∧
        ∀ r c, r < (t.shape_.getD 0 0).toNat → c < (t.shape_.getD 1 0).toNat →
          t.get [(r : Int), (c : Int)]
            = .ok (t.data_.getD (r * (t.shape_.getD 1 0).toNat + c) 0)) ∧
      (t.shape_.length ≠ 2 →
        body = [Out.text "Data (flat): "] ++ sepList ", " "\n" (t.data_.map Out.value)) := by
  have hwf := produced_wf ht
  have hshapeLine : t.shape_.enum.foldl
      (fun out p => out ++ [Out.int p.2,
        Out.text (if p.1 + 1 < t.shape_.length then ", " else "")])
      [(Out.text "Tensor shape: [" : Out F)]
        = [Out.text "Tensor shape: ["] ++ sepList ", " "" (t.shape_.map Out.int) :=
    enum_loop_eq_sepList Out.int ", " "" t.shape_.length t.shape_ 0 _ (by simp)
  by_cases h2 : t.shape_.length = 2
  · obtain ⟨rows, cols, hshape⟩ : ∃ rows cols, t.shape_ = [rows, cols] := by
      match hs : t.shape_, h2 with
      | [a, b], _ => exact ⟨a, b, rfl⟩
    have hrows : t.shape_.getD 0 0 = rows := by rw [hshape]; rfl
    have hcols : t.shape_.getD 1 0 = cols := by rw [hshape]; rfl
    have hcpos : 0 < cols := hwf.pos cols (by rw [hshape]; simp)
    have hget := fun r c hr hc => (get_2d hwf rows cols hshape h32 r c hr hc).2
    have hlen : t.data_.length = rows.toNat * cols.toNat := by
      have hrpos : 0 < rows := hwf.pos rows (by rw [hshape]; simp)
      exact (get_2d hwf rows cols hshape h32 0 0 (by omega) (by omega)).1
    rw [hrows, hcols]
    refine ⟨_, ?_, ?_, fun _ => ⟨rfl, hget⟩, fun hne => absurd h2 hne⟩
    · unfold Tensor.print
      simp only [hshapeLine, if_pos h2, hrows, hcols]
      rw [foldlM_ok _ (fun out r => out ++ ([Out.text "[ "] ++ sepList ", " " "
          ((List.range cols.toNat).map (fun c =>
            Out.value (t.data_.getD (r * cols.toNat + c) 0))) ++ [Out.text "]\n"]))]
      · rw [foldl_append_flatMap]
      · intro r hr out
        have hr2 : r < rows.toNat := List.mem_range.mp hr
        rw [foldlM_ok _ (fun out c => out ++ [Out.value (t.data_.getD (r * cols.toNat + c) 0),
            Out.text (if (c : Int) + 1 < cols then ", " else " ")])]
        · simp only [bind, Except.bind, pure, Except.pure]
          rw [foldl_append_flatMap, List.range_eq_range',
            range_sep_eq_sepList _ ", " " " cols cols.toNat 0 (by simp; omega)]
          simp
        · intro c hc out2
          have hc2 : c < cols.toNat := List.mem_range.mp hc
          rw [hget r c hr2 hc2]
          rfl
    · rw [values_flatMap]
      simp only [values_row]
      exact rows_concat t.data_ rows.toNat cols.toNat hlen
  · refine ⟨_, ?_, ?_, fun h => absurd h h2, fun _ => rfl⟩
    · unfold Tensor.print
      simp only [hshapeLine, if_neg h2]
      rw [List.enum, enum_loop_eq_sepList Out.value ", " "\n" t.data_.length t.data_ 0 _
        (by simp)]
      simp
    · have := values_row "Data (flat): " "" ", " "\n" (fun x : F => x) t.data_
      rw [values_append] at this
      simpa [values] using this

/-- C14, witness: the tensor of shape `{2, 3}` holding 1..6 prints the rows `1, 2, 3`
and `4, 5, 6`, each value being the one `get({r, c})` returns; the tensor of shape
`{2, 2, 2}` holding 1..8 prints its eight values in flat order on one line. -/
theorem C14_print_witness :
    (Produced (⟨[2, 3], [3, 1], [1, 2, 3, 4, 5, 6]⟩ : Tensor Int) ∧
      (∀ s ∈ ([2, 3] : List Int), s < 2 ^ 31) ∧ ([2, 3] : List Int).length = 2 ∧
      Produced (⟨[2, 2, 2], [4, 2, 1], [1, 2, 3, 4, 5, 6, 7, 8]⟩ : Tensor Int) ∧
      (∀ s ∈ ([2, 2, 2] : List Int), s < 2 ^ 31) ∧ ([2, 2, 2] : List Int).length ≠ 2) ∧
    (⟨[2, 3], [3, 1], [1, 2, 3, 4, 5, 6]⟩ : Tensor Int).print
      = .ok [.text "Tensor shape: [", .int 2, .text ", ", .int 3, .text "", .text "]\n",
          .text "[ ", .value 1, .text ", ", .value 2, .text ", ", .value 3, .text " ",
          .text "]\n",
          .text "[ ", .value 4, .text ", ", .value 5, .text ", ", .value 6, .text " ",
          .text "]\n"] ∧
    (∀ r c : Nat, r < 2 → c < 3 →
      (⟨[2, 3], [3, 1], [1, 2, 3, 4, 5, 6]⟩ : Tensor Int).get [(r : Int), (c : Int)]
        = .ok (([1, 2, 3, 4, 5, 6] : List Int).getD (r * 3 + c) 0)) ∧
    (⟨[2, 2, 2], [4, 2, 1], [1, 2, 3, 4, 5, 6, 7, 8]⟩ : Tensor Int).print
      = .ok [.text "Tensor shape: [", .int 2, .text ", ", .int 2, .text ", ", .int 2,
          .text "", .text "]\n",
          .text "Data (flat): ", .value 1, .text ", ", .value 2, .text ", ", .value 3,
          .text ", ", .value 4, .text ", ", .value 5, .text ", ", .value 6, .text ", ",
          .value 7, .text ", ", .value 8, .text "\n"] := by
  obtain ⟨body, h1, _, h3, _⟩ := C14_print _ produced_filled_2_3 (by decide)
  obtain ⟨hbody, hget⟩ := h3 (by decide)
  obtain ⟨body3, k1, _, _, k4⟩ := C14_print _ produced_filled_2_2_2 (by decide)
  have hbody3 := k4 (by decide)
  subst hbody
  subst hbody3
  exact ⟨⟨produced_filled_2_3, by decide, by decide, produced_filled_2_2_2, by decide,
    by decide⟩, h1, hget, k1⟩

/-! The members declared in `tensor.h` only (claims C15, C16 and C17) -/

theorem size_lt (t : Tensor F) : t.size < SIZE_T_MOD :=
  size_foldl_lt t.shape_ 1 (by decide)

theorem reshape_ok (t : Tensor F) (new_shape : List Int) (hne : new_shape ≠ [])
    (hpos : ∀ s ∈ new_shape, 0 < s) (hcount : new_shape.prod = (t.size : Int)) :
    t.reshape new_shape = (.ok (), ({ t with shape_ := new_shape }).compute_strides) := by
  have h1 : new_shape.isEmpty = false := by
    cases new_shape with
    | nil => exact absurd rfl hne
    | cons a l => rfl
  have h2 : new_shape.any (fun s => decide (s ≤ 0)) = false := by
    rw [Bool.eq_false_iff]
    intro hany
    obtain ⟨s, hs, hle⟩ := List.any_eq_true.mp hany
    have := hpos s hs
    simp at hle
    omega
  simp [Tensor.reshape, h1, h2, hcount]

theorem reshape_error (t : Tensor F) (new_shape : List Int)
    (h : new_shape.prod ≠ (t.size : Int) ∨ ∃ s ∈ new_shape, s ≤ 0) :
    t.reshape new_shape = (.error (.invalid_argument .unspecified), t) := by
  have hcond : (new_shape.isEmpty || new_shape.any (fun s => decide (s ≤ 0))
      || decide (new_shape.prod ≠ (t.size : Int))) = true := by
    rcases h with h | ⟨s, hs, hle⟩
    · simp [h]
    · have : new_shape.any (fun s => decide (s ≤ 0)) = true :=
        List.any_eq_true.mpr ⟨s, hs, by simpa using hle⟩
      simp [this]
  unfold Tensor.reshape
  rw [if_pos hcond]

/-- C15: against the member `reshape` as the specification describes it.  For a
tensor of the constructor, a non-empty new shape with positive entries whose product
is the current element count replaces the shape, the strides become the products of
the later entries of the new shape, and the flat data buffer is unchanged; so the
tensor of shape `[2, 3]` holding 1..6 reshaped to `[3, 2]` has (0,0)=1, (0,1)=2,
(1,0)=3, (1,1)=4, (2,0)=5, (2,1)=6.  When the product of the new shape differs from
the current element count or some new entry is `<= 0`, `reshape` fails with
invalid-argument and the tensor is unchanged. -/
theorem C15_reshape [Zero F] (t : Tensor F) (new_shape : List Int) (cast : Int → F)
    (ht : Produced t) :
    (new_shape ≠ [] → (∀ s ∈ new_shape, 0 < s) → new_shape.prod = (t.size : Int) →
      (t.reshape new_shape).1 = .ok () ∧
      (t.reshape new_shape).2.shape_ = new_shape ∧
      (t.reshape new_shape).2.data_ = t.data_ ∧
      (t.reshape new_shape).2.strides_.length = new_shape.length ∧
      ∀ i, i < new_shape.length →
        ((t.reshape new_shape).2.strides_.getD i 0 : Int) = (new_shape.drop (i + 1)).prod) ∧
    ((new_shape.prod ≠ (t.size : Int) ∨ ∃ s ∈ new_shape, s ≤ 0) →
      t.reshape new_shape = (.error (.invalid_argument .unspecified), t)) ∧
    (((⟨[2, 3], [3, 1], [cast 1, cast 2, cast 3, cast 4, cast 5, cast 6]⟩ : Tensor F).reshape
        [3, 2]) = (.ok (), ⟨[3, 2], [2, 1], [cast 1, cast 2, cast 3, cast 4, cast 5, cast 6]⟩) ∧
      (⟨[3, 2], [2, 1], [cast 1, cast 2, cast 3, cast 4, cast 5, cast 6]⟩ : Tensor F).get [0, 0]
        = .ok (cast 1) ∧
      (⟨[3, 2], [2, 1], [cast 1, cast 2, cast 3, cast 4, cast 5, cast 6]⟩ : Tensor F).get [0, 1]
        = .ok (cast 2) ∧
      (⟨[3, 2], [2, 1], [cast 1, cast 2, cast 3, cast 4, cast 5, cast 6]⟩ : Tensor F).get [1, 0]
        = .ok (cast 3) ∧
      (⟨[3, 2], [2, 1], [cast 1, cast 2, cast 3, cast 4, cast 5, cast 6]⟩ : Tensor F).get [1, 1]
        = .ok (cast 4) ∧
      (⟨[3, 2], [2, 1], [cast 1, cast 2, cast 3, cast 4, cast 5, cast 6]⟩ : Tensor F).get [2, 0]
        = .ok (cast 5) ∧
      (⟨[3, 2], [2, 1], [cast 1, cast 2, cast 3, cast 4, cast 5, cast 6]⟩ : Tensor F).get [2, 1]
        = .ok (cast 6)) := by
  have _hwf := produced_wf ht
  refine ⟨fun hne hpos hcount => ?_, reshape_error t new_shape, ?_⟩
  · have hnn : ∀ s ∈ new_shape, 0 ≤ s := fun s hs => (hpos s hs).le
    have hfit : natProd new_shape < SIZE_T_MOD := by
      have h1 : (natProd new_shape : Int) = (t.size : Int) := by
        rw [natProd_cast hpos, hcount]
      have h2 : natProd new_shape = t.size := by exact_mod_cast h1
      rw [h2]; exact size_lt t
    have hspec := compute_strides_loop_spec new_shape hnn new_shape.length
      (t.strides_.take new_shape.length
        ++ List.replicate (new_shape.length - t.strides_.length) 0) 1 (Nat.le_refl _)
      (by simp; omega) (by simp [SIZE_T_MOD]) (fun j h1 h2 => absurd h2 (by omega))
    rw [reshape_ok t new_shape hne hpos hcount]
    refine ⟨rfl, rfl, rfl, hspec.1, fun i hi => ?_⟩
    have := hspec.2 i hi
    simp only [Tensor.compute_strides]
    rw [this, Nat.mod_eq_of_lt (Nat.lt_of_le_of_lt (natProd_drop_le hpos _) hfit),
      natProd_cast (drop_pos hpos (i + 1))]
  · refine ⟨?_, ?_, ?_, ?_, ?_, ?_, ?_⟩
    · simp [Tensor.reshape, Tensor.size, Tensor.compute_strides, compute_strides_loop,
        to_size_t, SIZE_T_MOD]
    all_goals simp [Tensor.get, Tensor.index_from_indices, index_loop, to_size_t, SIZE_T_MOD]

/-- C15, witness: the tensor of shape `{2, 3}` reshaped to `{3, 2}` and to
`{3, 3}`. -/
theorem C15_reshape_witness :
    (Produced (⟨[2, 3], [3, 1], [0, 0, 0, 0, 0, 0]⟩ : Tensor Int) ∧
      ([3, 2] : List Int) ≠ [] ∧ (∀ s ∈ ([3, 2] : List Int), 0 < s) ∧
      ([3, 2] : List Int).prod
        = ((⟨[2, 3], [3, 1], [0, 0, 0, 0, 0, 0]⟩ : Tensor Int).size : Int) ∧
      ([3, 3] : List Int).prod
        ≠ ((⟨[2, 3], [3, 1], [0, 0, 0, 0, 0, 0]⟩ : Tensor Int).size : Int)) ∧
    ((⟨[2, 3], [3, 1], [0, 0, 0, 0, 0, 0]⟩ : Tensor Int).reshape [3, 2]).2.shape_ = [3, 2] ∧
    (⟨[2, 3], [3, 1], [0, 0, 0, 0, 0, 0]⟩ : Tensor Int).reshape [3, 3]
      = (.error (.invalid_argument .unspecified), ⟨[2, 3], [3, 1], [0, 0, 0, 0, 0, 0]⟩) := by
  have hp : Produced (⟨[2, 3], [3, 1], [0, 0, 0, 0, 0, 0]⟩ : Tensor Int) :=
    Produced.new sample_allocator [2, 3] _ (by decide)
  exact ⟨⟨hp, by decide, by decide, by decide, by decide⟩,
    ((C15_reshape _ [3, 2] (fun x => x) hp).1 (by decide) (by decide) (by decide)).2.1,
    (C15_reshape _ [3, 3] (fun x => x) hp).2.1 (Or.inl (by decide))⟩

theorem size_congr (a b : Tensor F) (h : a.shape_ = b.shape_) : a.size = b.size := by
  unfold Tensor.size
  rw [h]

/-- C16: against the members `add` and `multiply` as the specification describes
them.  For two tensors of the constructor, both fail with invalid-argument when the
shapes differ; when the shapes are equal they return a tensor of that shape whose
buffer has `size()` elements, the one at every flat offset `i` being `a[i] + b[i]`,
respectively `a[i] * b[i]`.  The operands are arguments of a function and are not
changed. -/
theorem C16_add_multiply [Zero F] [Add F] [Mul F] (a b : Tensor F)
    (ha : Produced a) (hb : Produced b) :
    (a.shape_ ≠ b.shape_ →
      a.add b = .error (.invalid_argument .unspecified) ∧
      a.multiply b = .error (.invalid_argument .unspecified)) ∧
    (a.shape_ = b.shape_ →
      ∃ r p, a.add b = .ok r ∧ a.multiply b = .ok p ∧
        r.shape_ = a.shape_ ∧ p.shape_ = a.shape_ ∧
        r.data_.length = a.size ∧ p.data_.length = a.size ∧
        ∀ i, i < a.size → ∃ x y, a.data_[i]? = some x ∧ b.data_[i]? = some y ∧
          r.data_[i]? = some (x + y) ∧ p.data_[i]? = some (x * y)) := by
  have hwa := produced_wf ha
  have hwb := produced_wf hb
  refine ⟨fun hne => ⟨by simp [Tensor.add, hne], by simp [Tensor.multiply, hne]⟩,
    fun heq => ?_⟩
  have hlb : b.data_.length = a.size := by rw [hwb.data_len, size_congr a b heq]
  refine ⟨{ a with data_ := List.zipWith (fun x y => x + y) a.data_ b.data_ },
    { a with data_ := List.zipWith (fun x y => x * y) a.data_ b.data_ },
    by simp [Tensor.add, heq], by simp [Tensor.multiply, heq], rfl, rfl,
    by simp [hwa.data_len, hlb], by simp [hwa.data_len, hlb], fun i hi => ?_⟩
  have h1 : i < a.data_.length := by rw [hwa.data_len]; exact hi
  have h2 : i < b.data_.length := by rw [hlb]; exact hi
  refine ⟨a.data_[i], b.data_[i], List.getElem?_eq_getElem h1, List.getElem?_eq_getElem h2,
    ?_, ?_⟩
  · simp [List.getElem?_zipWith, List.getElem?_eq_getElem h1, List.getElem?_eq_getElem h2]
  · simp [List.getElem?_zipWith, List.getElem?_eq_getElem h1, List.getElem?_eq_getElem h2]

/-- C16, witness: the tensors of shape `{2, 3}` holding 1..6 and 10, 20, ..., 60 have
the sum `11, 22, ..., 66` and the product `10, 40, 90, 160, 250, 360`; the tensors of
shapes `{2, 3}` and `{3, 2}` cannot be added. -/
theorem C16_add_multiply_witness :
    (Produced (⟨[2, 3], [3, 1], [1, 2, 3, 4, 5, 6]⟩ : Tensor Int) ∧
      Produced (⟨[2, 3], [3, 1], [10, 20, 30, 40, 50, 60]⟩ : Tensor Int) ∧
      Produced (⟨[3, 2], [2, 1], [0, 0, 0, 0, 0, 0]⟩ : Tensor Int) ∧
      ([2, 3] : List Int) ≠ [3, 2] ∧ ([2, 3] : List Int) = [2, 3]) ∧
    ((⟨[2, 3], [3, 1], [1, 2, 3, 4, 5, 6]⟩ : Tensor Int).add
        ⟨[3, 2], [2, 1], [0, 0, 0, 0, 0, 0]⟩ = .error (.invalid_argument .unspecified) ∧
      (⟨[2, 3], [3, 1], [1, 2, 3, 4, 5, 6]⟩ : Tensor Int).multiply
        ⟨[3, 2], [2, 1], [0, 0, 0, 0, 0, 0]⟩ = .error (.invalid_argument .unspecified)) ∧
    ∃ r p, (⟨[2, 3], [3, 1], [1, 2, 3, 4, 5, 6]⟩ : Tensor Int).add
          ⟨[2, 3], [3, 1], [10, 20, 30, 40, 50, 60]⟩ = .ok r ∧
      (⟨[2, 3], [3, 1], [1, 2, 3, 4, 5, 6]⟩ : Tensor Int).multiply
          ⟨[2, 3], [3, 1], [10, 20, 30, 40, 50, 60]⟩ = .ok p ∧
      r.shape_ = [2, 3] ∧ p.shape_ = [2, 3] ∧
      (∀ i, i < 6 → ∃ x y, ([1, 2, 3, 4, 5, 6] : List Int)[i]? = some x ∧
        ([10, 20, 30, 40, 50, 60] : List Int)[i]? = some y ∧
        r.data_[i]? = some (x + y) ∧ p.data_[i]? = some (x * y)) ∧
      r.data_ = [11, 22, 33, 44, 55, 66] ∧ p.data_ = [10, 40, 90, 160, 250, 360] := by
  have hq : Produced (⟨[3, 2], [2, 1], [0, 0, 0, 0, 0, 0]⟩ : Tensor Int) :=
    Produced.new sample_allocator [3, 2] _ (by decide)
  obtain ⟨r, p, h1, h2, h3, h4, _, _, h7⟩ :=
    (C16_add_multiply _ _ produced_filled_2_3 produced_tens_2_3).2 rfl
  have hr : r = ⟨[2, 3], [3, 1], [11, 22, 33, 44, 55, 66]⟩ := by
    have h1b : (⟨[2, 3], [3, 1], [1, 2, 3, 4, 5, 6]⟩ : Tensor Int).add
        ⟨[2, 3], [3, 1], [10, 20, 30, 40, 50, 60]⟩
        = .ok ⟨[2, 3], [3, 1], [11, 22, 33, 44, 55, 66]⟩ := by decide
    rw [h1] at h1b
    injection h1b
  have hp : p = ⟨[2, 3], [3, 1], [10, 40, 90, 160, 250, 360]⟩ := by
    have h2b : (⟨[2, 3], [3, 1], [1, 2, 3, 4, 5, 6]⟩ : Tensor Int).multiply
        ⟨[2, 3], [3, 1], [10, 20, 30, 40, 50, 60]⟩
        = .ok ⟨[2, 3], [3, 1], [10, 40, 90, 160, 250, 360]⟩ := by decide
    rw [h2] at h2b
    injection h2b
  exact ⟨⟨produced_filled_2_3, produced_tens_2_3, hq, by decide, rfl⟩,
    (C16_add_multiply _ _ produced_filled_2_3 hq).1 (by decide),
    r, p, h1, h2, h3, h4, h7, by rw [hr], by rw [hp]⟩

theorem at2_of_get [Zero F] (t : Tensor F) (i j : Int) (x : F)
    (h : t.get [i, j] = .ok x) : t.at2 i j = x := by
  unfold Tensor.at2
  rw [h]

/-- C17: against the member `transpose2D` as the specification describes it.  For a
tensor of the constructor with shape entries that are `int` values: when the number of
dimensions is not 2 it fails with invalid-argument; when the shape is `[rows, cols]`
it returns a tensor of shape `[cols, rows]` with `result(j, i) = t(i, j)` for all
`0 <= i < rows` and `0 <= j < cols`. -/
theorem C17_transpose2D [Zero F] (t : Tensor F) (ht : Produced t)
    (h32 : ∀ s ∈ t.shape_, s < 2 ^ 31) :
    (t.shape_.length ≠ 2 → t.transpose2D = .error (.invalid_argument .unspecified)) ∧
    (∀ rows cols, t.shape_ = [rows, cols] →
      ∃ r, t.transpose2D = .ok r ∧ r.shape_ = [cols, rows] ∧
        ∀ i j : Nat, i < rows.toNat → j < cols.toNat →
          ∃ x, t.get [(i : Int), (j : Int)] = .ok x ∧
            r.get [(j : Int), (i : Int)] = .ok x) := by
  have hwf := produced_wf ht
  refine ⟨fun hne => by simp [Tensor.transpose2D, hne], fun rows cols hshape => ?_⟩
  have hrpos : 0 < rows := hwf.pos rows (by rw [hshape]; simp)
  have hcpos : 0 < cols := hwf.pos cols (by rw [hshape]; simp)
  have hr32 : rows < 2 ^ 31 := h32 rows (by rw [hshape]; simp)
  have hc32 : cols < 2 ^ 31 := h32 cols (by rw [hshape]; simp)
  have hpos2 : ∀ s ∈ [cols, rows], 0 < s := by
    intro s hs
    simp at hs
    rcases hs with rfl | rfl <;> assumption
  obtain ⟨r0, hr0⟩ : ∃ r0 : Tensor F,
      r0 = ({ shape_ := [cols, rows], strides_ := [], data_ := [] } : Tensor F).compute_strides :=
    ⟨_, rfl⟩
  have hshape0 : r0.shape_ = [cols, rows] := by rw [hr0]; rfl
  have hspec := compute_strides_loop_spec [cols, rows] (fun s hs => (hpos2 s hs).le) 2
    [0, 0] 1 (Nat.le_refl _) rfl (by simp [SIZE_T_MOD]) (fun j h1 h2 => absurd h2 (by
      simp at h2; omega))
  have hstr0 : r0.strides_ = compute_strides_loop [cols, rows] 2 [0, 0] 1 := by rw [hr0]; rfl
  obtain ⟨D, hDdef⟩ : ∃ D : List F, D = (List.range cols.toNat).flatMap (fun (j : Nat) =>
      (List.range rows.toNat).map (fun (i : Nat) => t.at2 (i : Int) (j : Int))) := ⟨_, rfl⟩
  have hD : D = (List.range (cols.toNat * rows.toNat)).map
      (fun k => t.at2 ((k % rows.toNat : Nat) : Int) ((k / rows.toNat : Nat) : Int)) := by
    rw [hDdef]
    exact flatMap_range_eq_map (fun j i => t.at2 (i : Int) (j : Int)) rows.toNat cols.toNat
  have hfit0 : natProd r0.shape_ < SIZE_T_MOD := by
    rw [hshape0]
    have h1 : rows.toNat < 2 ^ 31 := by omega
    have h2 : cols.toNat < 2 ^ 31 := by omega
    have : cols.toNat * rows.toNat < 2 ^ 31 * 2 ^ 31 := Nat.mul_lt_mul'' h2 h1
    simp only [natProd_cons, natProd_nil, Nat.mul_one]
    unfold SIZE_T_MOD
    omega
  have hres : t.transpose2D = .ok { r0 with data_ := D } := by
    rw [hDdef, hr0]
    simp [Tensor.transpose2D, hshape]
  have hwfr : WF ({ r0 with data_ := D } : Tensor F) := by
    refine ⟨by rw [hshape0]; simp, by rw [hshape0]; exact hpos2,
      by rw [hshape0, hstr0]; exact hspec.1,
      fun j hj => by rw [hshape0] at hj ⊢; rw [hstr0]; exact hspec.2 j hj, ?_⟩
    have hs : ({ r0 with data_ := D } : Tensor F).size
        = natProd r0.shape_ % SIZE_T_MOD :=
      size_eq_mod _ (fun s hs => by
        have hs2 : s ∈ [cols, rows] := by rw [← hshape0]; exact hs
        exact (hpos2 s hs2).le)
    rw [hs, Nat.mod_eq_of_lt hfit0, hshape0]
    simp [hD]
  have h32r : ∀ s ∈ ({ r0 with data_ := D } : Tensor F).shape_, s < 2 ^ 31 := by
    intro s hs
    have hs2 : s ∈ [cols, rows] := by rw [← hshape0]; exact hs
    simp at hs2
    rcases hs2 with rfl | rfl <;> assumption
  refine ⟨_, hres, hshape0, fun i j hi hj => ?_⟩
  obtain ⟨_, hgt⟩ := get_2d hwf rows cols hshape h32 i j hi hj
  refine ⟨_, hgt, ?_⟩
  obtain ⟨_, hgr⟩ := get_2d hwfr cols rows hshape0 h32r j i hj hi
  rw [hgr]
  congr 1
  have hidx : j * rows.toNat + i < cols.toNat * rows.toNat := by
    have := Nat.mul_le_mul_right rows.toNat (show j + 1 ≤ cols.toNat from hj)
    nlinarith
  show D.getD (j * rows.toNat + i) 0 = _
  have hR : 0 < rows.toNat := by omega
  subst hD
  rw [List.getD_eq_getElem _ _ (by simpa using hidx)]
  simp only [List.getElem_map, List.getElem_range]
  rw [Nat.mul_comm j, Nat.mul_add_mod, Nat.mod_eq_of_lt hi, Nat.mul_add_div hR,
    Nat.div_eq_of_lt hi, Nat.add_zero]
  exact at2_of_get t _ _ _ hgt

/-- C17, witness: the tensor of shape `{2, 3}` holding 1..6, and a tensor of three
dimensions. -/
theorem C17_transpose2D_witness :
    (Produced (⟨[2, 3], [3, 1], [1, 2, 3, 4, 5, 6]⟩ : Tensor Int) ∧
      (∀ s ∈ ([2, 3] : List Int), s < 2 ^ 31) ∧
      Produced (⟨[2, 2, 2], [4, 2, 1], [0, 0, 0, 0, 0, 0, 0, 0]⟩ : Tensor Int) ∧
      (∀ s ∈ ([2, 2, 2] : List Int), s < 2 ^ 31) ∧ ([2, 2, 2] : List Int).length ≠ 2) ∧
    (⟨[2, 2, 2], [4, 2, 1], [0, 0, 0, 0, 0, 0, 0, 0]⟩ : Tensor Int).transpose2D
      = .error (.invalid_argument .unspecified) ∧
    ∃ r, (⟨[2, 3], [3, 1], [1, 2, 3, 4, 5, 6]⟩ : Tensor Int).transpose2D = .ok r ∧
      r.shape_ = [3, 2] ∧
      ∀ i j : Nat, i < 2 → j < 3 →
        ∃ x, (⟨[2, 3], [3, 1], [1, 2, 3, 4, 5, 6]⟩ : Tensor Int).get [(i : Int), (j : Int)]
            = .ok x ∧ r.get [(j : Int), (i : Int)] = .ok x := by
  have hp0 : Produced (⟨[2, 3], [3, 1], [0, 0, 0, 0, 0, 0]⟩ : Tensor Int) :=
    Produced.new sample_allocator [2, 3] _ (by decide)
  have hp1 := produced_set_eq hp0 [0, 0] 1 ⟨[2, 3], [3, 1], [1, 0, 0, 0, 0, 0]⟩ (by decide)
  have hp2 := produced_set_eq hp1 [0, 1] 2 ⟨[2, 3], [3, 1], [1, 2, 0, 0, 0, 0]⟩ (by decide)
  have hp3 := produced_set_eq hp2 [0, 2] 3 ⟨[2, 3], [3, 1], [1, 2, 3, 0, 0, 0]⟩ (by decide)
  have hp4 := produced_set_eq hp3 [1, 0] 4 ⟨[2, 3], [3, 1], [1, 2, 3, 4, 0, 0]⟩ (by decide)
  have hp5 := produced_set_eq hp4 [1, 1] 5 ⟨[2, 3], [3, 1], [1, 2, 3, 4, 5, 0]⟩ (by decide)
  have hp6 := produced_set_eq hp5 [1, 2] 6 ⟨[2, 3], [3, 1], [1, 2, 3, 4, 5, 6]⟩ (by decide)
  have hq : Produced (⟨[2, 2, 2], [4, 2, 1], [0, 0, 0, 0, 0, 0, 0, 0]⟩ : Tensor Int) :=
    Produced.new sample_allocator [2, 2, 2] _ (by decide)
  exact ⟨⟨hp6, by decide, hq, by decide, by decide⟩,
    (C17_transpose2D _ hq (by decide)).1 (by decide),
    (C17_transpose2D _ hp6 (by decide)).2 2 3 rfl⟩

end TensorModel
